import Mathlib

/-!
Verification of the per-collection search pipeline of a document search engine
(collection search, pagination, bucketed rescoring, sort standardization,
union execution, schema alteration, curation, reference cascades, analytics
rate limiting, and text-match score decoding), shallowly embedded from
`src/collection.cpp` and `src/analytics_manager.cpp`.

Machine integers are modelled as `Nat`/`Int` with explicit wrapping where the
source relies on fixed-width behaviour.
-/

namespace Typesense

/-! ## Text match info decoding (`Collection::extract_bits`,
`Collection::populate_text_match_info`) -/

/-- Embeds `Collection::extract_bits` (collection.cpp): `lsb_offset` is
zero-based and inclusive; `value` is a `uint64_t`, modelled as a `Nat` that is
`< 2 ^ 64` where it matters. `max_n = 64`; the mask is `(1 << n) - 1`. -/
def extract_bits (value : Nat) (lsb_offset n : Nat) : Nat :=
  if lsb_offset ≥ 64 then 0
  else
    let v := value >>> lsb_offset
    if n ≥ 64 then v
    else v &&& (2 ^ n - 1)

/-- The two text match scoring schemes (`text_match_type_t`). -/
inductive TextMatchType where
  | max_score : TextMatchType
  | max_weight : TextMatchType
deriving DecidableEq, Repr

/-- The decoded `text_match_info` JSON object produced by
`Collection::populate_text_match_info`. `num_tokens_dropped` is computed with
`size_t` subtraction, modelled as wrapping arithmetic modulo `2 ^ 64`. -/
structure TextMatchInfo where
  score : Nat
  tokens_matched : Nat
  fields_matched : Nat
  best_field_score : Nat
  best_field_weight : Nat
  num_tokens_dropped : Nat
  typo_prefix_score : Nat
deriving DecidableEq, Repr

/-- Embeds `Collection::populate_text_match_info` (collection.cpp).
MAX_SCORE layout: `[sign 1 | tokens_matched 4 | max_field_score 48 |
max_field_weight 8 | num_matching_fields 3]`; MAX_WEIGHT swaps the score and
weight blocks. -/
def populate_text_match_info (match_score : Nat) (match_type : TextMatchType)
    (total_tokens : Nat) : TextMatchInfo :=
  let tokens_matched := extract_bits match_score 59 4
  let dropped := (total_tokens + 2 ^ 64 - tokens_matched) % 2 ^ 64
  match match_type with
  | .max_score =>
      { score := match_score
        tokens_matched := tokens_matched
        fields_matched := extract_bits match_score 0 3
        best_field_score := extract_bits match_score 11 48
        best_field_weight := extract_bits match_score 3 8
        num_tokens_dropped := dropped
        typo_prefix_score := 255 - extract_bits match_score 35 8 }
  | .max_weight =>
      { score := match_score
        tokens_matched := tokens_matched
        fields_matched := extract_bits match_score 0 3
        best_field_score := extract_bits match_score 3 48
        best_field_weight := extract_bits match_score 51 8
        num_tokens_dropped := dropped
        typo_prefix_score := 255 - extract_bits match_score 27 8 }

/-- The contiguous bit field of `s` spanning bit positions `lo..hi`
(inclusive), as plain arithmetic: shift right by `lo`, keep `hi - lo + 1`
bits. -/
def bitsRange (s lo hi : Nat) : Nat :=
  s / 2 ^ lo % 2 ^ (hi - lo + 1)

theorem extract_bits_eq_bitsRange (s lsb n : Nat) (hlsb : lsb < 64) (hn : n < 64)
    (hn0 : 0 < n) :
    extract_bits s lsb n = bitsRange s lsb (lsb + n - 1) := by
  unfold extract_bits bitsRange
  rw [if_neg (by omega), if_neg (by omega)]
  rw [Nat.shiftRight_eq_div_pow, Nat.and_pow_two_sub_one_eq_mod]
  have h : lsb + n - 1 - lsb + 1 = n := by omega
  rw [h]

/-- C9: for every 64-bit text match score and match_type, `text_match_info`
decodes the score exactly per the declared bit layout: `tokens_matched` is
bits 59..62 and `fields_matched` is bits 0..2 in both schemes; under
`max_score`, `best_field_score` is bits 11..58, `best_field_weight` is bits
3..10 and `typo_prefix_score` is 255 minus bits 35..42; under `max_weight`,
`best_field_weight` is bits 51..58, `best_field_score` is bits 3..50 and
`typo_prefix_score` is 255 minus bits 27..34; `num_tokens_dropped` equals the
query token count minus `tokens_matched`. -/
theorem text_match_info_bit_layout (s total : Nat) (mt : TextMatchType)
    (htotal : total < 2 ^ 64) (htm : extract_bits s 59 4 ≤ total) :
    (populate_text_match_info s mt total).tokens_matched = bitsRange s 59 62 ∧
    (populate_text_match_info s mt total).fields_matched = bitsRange s 0 2 ∧
    (mt = .max_score →
      (populate_text_match_info s mt total).best_field_score = bitsRange s 11 58 ∧
      (populate_text_match_info s mt total).best_field_weight = bitsRange s 3 10 ∧
      (populate_text_match_info s mt total).typo_prefix_score = 255 - bitsRange s 35 42) ∧
    (mt = .max_weight →
      (populate_text_match_info s mt total).best_field_weight = bitsRange s 51 58 ∧
      (populate_text_match_info s mt total).best_field_score = bitsRange s 3 50 ∧
      (populate_text_match_info s mt total).typo_prefix_score = 255 - bitsRange s 27 34) ∧
    (populate_text_match_info s mt total).num_tokens_dropped =
      total - (populate_text_match_info s mt total).tokens_matched := by
  have h59 : extract_bits s 59 4 = bitsRange s 59 62 :=
    extract_bits_eq_bitsRange s 59 4 (by omega) (by omega) (by omega)
  have h0 : extract_bits s 0 3 = bitsRange s 0 2 :=
    extract_bits_eq_bitsRange s 0 3 (by omega) (by omega) (by omega)
  have h11 : extract_bits s 11 48 = bitsRange s 11 58 :=
    extract_bits_eq_bitsRange s 11 48 (by omega) (by omega) (by omega)
  have h3w : extract_bits s 3 8 = bitsRange s 3 10 :=
    extract_bits_eq_bitsRange s 3 8 (by omega) (by omega) (by omega)
  have h35 : extract_bits s 35 8 = bitsRange s 35 42 :=
    extract_bits_eq_bitsRange s 35 8 (by omega) (by omega) (by omega)
  have h51 : extract_bits s 51 8 = bitsRange s 51 58 :=
    extract_bits_eq_bitsRange s 51 8 (by omega) (by omega) (by omega)
  have h3s : extract_bits s 3 48 = bitsRange s 3 50 :=
    extract_bits_eq_bitsRange s 3 48 (by omega) (by omega) (by omega)
  have h27 : extract_bits s 27 8 = bitsRange s 27 34 :=
    extract_bits_eq_bitsRange s 27 8 (by omega) (by omega) (by omega)
  have hdrop : (total + 2 ^ 64 - extract_bits s 59 4) % 2 ^ 64 =
      total - extract_bits s 59 4 := by
    omega
  cases mt
  · refine ⟨h59, h0, fun _ => ⟨h11, h3w, ?_⟩, fun h => absurd h (by decide), hdrop⟩
    exact congrArg (fun x => 255 - x) h35
  · refine ⟨h59, h0, fun h => absurd h (by decide), fun _ => ⟨h51, h3s, ?_⟩, hdrop⟩
    exact congrArg (fun x => 255 - x) h27

/-- Witness for `text_match_info_bit_layout` at a concrete score. -/
theorem text_match_info_bit_layout_witness :
    (7 : Nat) < 2 ^ 64 ∧ extract_bits (2 ^ 59 * 3 + 2 ^ 11 * 100 + 2 ^ 3 * 5 + 2) 59 4 ≤ 7 ∧
    (populate_text_match_info (2 ^ 59 * 3 + 2 ^ 11 * 100 + 2 ^ 3 * 5 + 2)
        TextMatchType.max_score 7).tokens_matched =
      bitsRange (2 ^ 59 * 3 + 2 ^ 11 * 100 + 2 ^ 3 * 5 + 2) 59 62 :=
  ⟨by decide, by decide,
    (text_match_info_bit_layout (2 ^ 59 * 3 + 2 ^ 11 * 100 + 2 ^ 3 * 5 + 2) 7
      TextMatchType.max_score (by decide) (by decide)).1⟩

/-! ## Pagination (`Collection::init_index_search_args` offset/fetch_size and
the result-slicing loop in `Collection::search`) -/

/-- Embeds the offset computation of `Collection::init_index_search_args`
(collection.cpp): if only `offset` is set (page is 0 and offset non-zero) use
it, otherwise use the page value (default 1). -/
def computeOffset (page page_offset per_page : Nat) : Nat :=
  if page = 0 ∧ page_offset ≠ 0 then page_offset
  else
    let actual_page := if page = 0 then 1 else page
    per_page * (actual_page - 1)

/-- Embeds `size_t fetch_size = std::min<size_t>(offset + per_page, limit_hits)`
from `Collection::init_index_search_args`. -/
def computeFetchSize (offset per_page limit_hits : Nat) : Nat :=
  min (offset + per_page) limit_hits

/-- Embeds the results-construction loop of `Collection::search`
(collection.cpp): `start_result_index = offset`,
`end_result_index = min(fetch_size, result_group_kvs.size()) - 1` (signed, may
be -1), and the loop emits `result_group_kvs[i]` for
`start_result_index ≤ i ≤ end_result_index`. -/
def constructResultHits {α : Type} (result_group_kvs : List α)
    (offset fetch_size : Nat) : List α :=
  let end_result_index : Int := (min fetch_size result_group_kvs.length : Nat) - 1
  (List.range result_group_kvs.length).filterMap fun (i : Nat) =>
    if (offset : Int) ≤ (i : Int) ∧ (i : Int) ≤ end_result_index then
      result_group_kvs[i]? else none

theorem filterMap_ite_range {α : Type} (l : List α) (a b : Nat) (hb : b ≤ l.length) :
    ((List.range l.length).filterMap
      (fun i => if a ≤ i ∧ i < b then l[i]? else none)) = (l.take b).drop a := by
  induction l generalizing a b with
  | nil =>
    have hb0 : b = 0 := Nat.le_zero.mp hb
    subst hb0
    simp
  | cons x xs ih =>
    rw [List.length_cons, List.range_succ_eq_map, List.filterMap_cons, List.filterMap_map]
    rcases b with _ | b
    · have htail : ((fun i => if a ≤ i ∧ i < 0 then (x :: xs)[i]? else none) ∘ Nat.succ) =
          fun _ => (none : Option α) := by
        funext i
        simp
      rw [htail]
      simp
    · have hb' : b ≤ xs.length := by
        simpa using hb
      have htail : (List.range xs.length).filterMap
            ((fun i => if a ≤ i ∧ i < b + 1 then (x :: xs)[i]? else none) ∘ Nat.succ) =
          (List.range xs.length).filterMap
            (fun i => if a - 1 ≤ i ∧ i < b then xs[i]? else none) := by
        refine List.filterMap_congr fun i _ => ?_
        simp only [Function.comp_apply, List.getElem?_cons_succ]
        refine if_congr ?_ rfl rfl
        omega
      rw [htail, ih (a - 1) b hb']
      rcases a with _ | a
      · have hhead : (if 0 ≤ 0 ∧ 0 < b + 1 then (x :: xs)[0]? else none) = some x := by
          simp
        rw [hhead]
        simp
      · have hhead : (if a + 1 ≤ 0 ∧ 0 < b + 1 then (x :: xs)[0]? else none) = none := by
          simp
        rw [hhead]
        simp [List.drop_succ_cons]

theorem constructResultHits_eq_window {α : Type} (l : List α) (offset fetch : Nat) :
    constructResultHits l offset fetch = (l.take (min fetch l.length)).drop offset := by
  unfold constructResultHits
  have hcongr : (List.range l.length).filterMap
        (fun (i : Nat) => if (offset : Int) ≤ (i : Int) ∧
            (i : Int) ≤ ((min fetch l.length : Nat) : Int) - 1 then l[i]? else none) =
      (List.range l.length).filterMap
        (fun i => if offset ≤ i ∧ i < min fetch l.length then l[i]? else none) := by
    refine List.filterMap_congr fun i _ => ?_
    refine if_congr ?_ rfl rfl
    omega
  rw [hcongr, filterMap_ite_range l offset (min fetch l.length) (Nat.min_le_right _ _)]

/-- C1: for every search request, the plan's fetch_size equals
`min(offset + per_page, limit_hits)` — offset being the explicit offset
parameter when page is 0 and offset non-zero, and `per_page*(page-1)`
otherwise with page defaulting to 1 — and the hits array is exactly the
contiguous slice of the merged result list from index `offset` up to
`min(fetch_size, number of merged results)` exclusive; in particular the
number of returned hits never exceeds `limit_hits`. -/
theorem search_pagination_window {α : Type} (page page_offset per_page limit_hits : Nat)
    (result_group_kvs : List α) :
    computeFetchSize (computeOffset page page_offset per_page) per_page limit_hits =
      min (computeOffset page page_offset per_page + per_page) limit_hits ∧
    computeOffset page page_offset per_page =
      (if page = 0 ∧ page_offset ≠ 0 then page_offset
       else per_page * ((if page = 0 then 1 else page) - 1)) ∧
    constructResultHits result_group_kvs (computeOffset page page_offset per_page)
        (computeFetchSize (computeOffset page page_offset per_page) per_page limit_hits) =
      (result_group_kvs.take
          (min (computeFetchSize (computeOffset page page_offset per_page) per_page limit_hits)
            result_group_kvs.length)).drop (computeOffset page page_offset per_page) ∧
    (constructResultHits result_group_kvs (computeOffset page page_offset per_page)
        (computeFetchSize (computeOffset page page_offset per_page) per_page limit_hits)).length ≤
      limit_hits := by
  refine ⟨rfl, ?_, constructResultHits_eq_window _ _ _, ?_⟩
  · unfold computeOffset
    split <;> rfl
  · rw [constructResultHits_eq_window]
    have h1 : (result_group_kvs.take
        (min (computeFetchSize (computeOffset page page_offset per_page) per_page limit_hits)
          result_group_kvs.length)).length ≤
        computeFetchSize (computeOffset page page_offset per_page) per_page limit_hits := by
      simp [List.length_take]
    have h2 : computeFetchSize (computeOffset page page_offset per_page) per_page limit_hits ≤
        limit_hits := Nat.min_le_right _ _
    calc ((result_group_kvs.take
            (min (computeFetchSize (computeOffset page page_offset per_page) per_page limit_hits)
              result_group_kvs.length)).drop (computeOffset page page_offset per_page)).length ≤
          (result_group_kvs.take
            (min (computeFetchSize (computeOffset page page_offset per_page) per_page limit_hits)
              result_group_kvs.length)).length := by
            simp [List.length_drop]
      _ ≤ _ := le_trans h1 h2

/-! ## Analytics per-IP rate limiting (`AnalyticsManager::add_event`,
analytics_manager.cpp). `EVENTS_RATE_LIMIT_SEC = 60`. The per-IP LRU cache
is modelled as an association list (the capacity-1024 eviction policy of the
LRU container lives outside the translated code and is not modelled). Both
timestamps are `uint64_t` in the source; the subtraction
`now_ts_seconds - last_update_time` is unsigned, modelled as wrap-around
arithmetic modulo `2 ^ 64`. -/

/-- Per-IP rate record `event_cache_t {last_update_time, count}`. -/
structure EventCacheEntry where
  last_update_time : Nat
  count : Nat
deriving DecidableEq, Repr

/-- The `events_cache` map, client IP to rate record. -/
def EventsCache : Type := List (String × EventCacheEntry)

/-- Map lookup. -/
def cacheFind (cache : EventsCache) (ip : String) : Option EventCacheEntry :=
  ((cache : List (String × EventCacheEntry)).find? (fun p => p.1 == ip)).map Prod.snd

/-- Map insert-or-assign. -/
def cacheSet (cache : EventsCache) (ip : String) (e : EventCacheEntry) : EventsCache :=
  match cache with
  | [] => [(ip, e)]
  | (k, v) :: rest =>
      if k == ip then (k, e) :: rest else (k, v) :: cacheSet rest ip e

/-- `uint64_t` subtraction. -/
def u64sub (a b : Nat) : Nat :=
  (a + 2 ^ 64 - b % 2 ^ 64) % 2 ^ 64

/-- Outcome of the rate-limiting block of `AnalyticsManager::add_event`:
`rejected` is `Option<bool>(500, "event rate limit reached.")`. -/
inductive RateLimitResult where
  | rejected : RateLimitResult
  | accepted : RateLimitResult
deriving DecidableEq, Repr

/-- Embeds the rate-limiting block of `AnalyticsManager::add_event`
(analytics_manager.cpp): on a fresh-window hit at the limit, reject and leave
all analytics state unchanged; otherwise increment, or reset to 1 when the
record is at least 60 seconds old, or create at 1 when absent. -/
def rateLimitEvent (cache : EventsCache) (ip : String)
    (analytics_minute_rate_limit now : Nat) : RateLimitResult × EventsCache :=
  match cacheFind cache ip with
  | some ec =>
      if u64sub now ec.last_update_time < 60 then
        if ec.count ≥ analytics_minute_rate_limit then (.rejected, cache)
        else (.accepted, cacheSet cache ip { ec with count := ec.count + 1 })
      else (.accepted, cacheSet cache ip { last_update_time := now, count := 1 })
  | none => (.accepted, cacheSet cache ip { last_update_time := now, count := 1 })

/-- Runs `rateLimitEvent` over a sequence of event timestamps from one IP. -/
def runRateLimitedEvents (cache : EventsCache) (ip : String) (limit : Nat) :
    List Nat → List RateLimitResult × EventsCache
  | [] => ([], cache)
  | now :: rest =>
      let r := rateLimitEvent cache ip limit now
      let rec' := runRateLimitedEvents r.2 ip limit rest
      (r.1 :: rec'.1, rec'.2)

/-- C8: for every client IP, `add_event` maintains a per-IP
`{last_update_time, count}` record: a request inside a fresh (< 60 s) window
at the limit is rejected with the rate-limit error and the cache is
unchanged; otherwise the count is incremented, or reset to 1 when the record
is at least 60 s old, or created at 1 when absent, and the event is accepted.
With limit 3, four events inside a window give accept, accept, accept,
reject, and a fifth event 60 s after the window start is accepted again. -/
theorem analytics_rate_limit_behaviour (cache : EventsCache) (ip : String)
    (limit now : Nat) :
    (∀ ec, cacheFind cache ip = some ec → u64sub now ec.last_update_time < 60 →
      ec.count ≥ limit → rateLimitEvent cache ip limit now = (.rejected, cache)) ∧
    (∀ ec, cacheFind cache ip = some ec → u64sub now ec.last_update_time < 60 →
      ec.count < limit → rateLimitEvent cache ip limit now =
        (.accepted, cacheSet cache ip { ec with count := ec.count + 1 })) ∧
    (∀ ec, cacheFind cache ip = some ec → ¬ u64sub now ec.last_update_time < 60 →
      rateLimitEvent cache ip limit now =
        (.accepted, cacheSet cache ip { last_update_time := now, count := 1 })) ∧
    (cacheFind cache ip = none → rateLimitEvent cache ip limit now =
      (.accepted, cacheSet cache ip { last_update_time := now, count := 1 })) ∧
    (runRateLimitedEvents [] "1.2.3.4" 3 [1000, 1010, 1020, 1030, 1060]).1 =
      [.accepted, .accepted, .accepted, .rejected, .accepted] := by
  refine ⟨?_, ?_, ?_, ?_, by decide⟩
  · intro ec hfind hfresh hcount
    unfold rateLimitEvent
    rw [hfind]
    simp only [if_pos hfresh, if_pos hcount]
  · intro ec hfind hfresh hcount
    unfold rateLimitEvent
    rw [hfind]
    simp only [if_pos hfresh, if_neg (by omega : ¬ ec.count ≥ limit)]
  · intro ec hfind hstale
    unfold rateLimitEvent
    rw [hfind]
    simp only [if_neg hstale]
  · intro hfind
    unfold rateLimitEvent
    rw [hfind]

/-- Witness for `analytics_rate_limit_behaviour`: a fourth event 30 s into a
window whose count already reached limit 3 is rejected without touching the
cache. -/
theorem analytics_rate_limit_behaviour_witness :
    rateLimitEvent [("1.2.3.4", ⟨100, 3⟩)] "1.2.3.4" 3 130 =
      (.rejected, [("1.2.3.4", ⟨100, 3⟩)]) :=
  (analytics_rate_limit_behaviour [("1.2.3.4", ⟨100, 3⟩)] "1.2.3.4" 3 130).1
    ⟨100, 3⟩ (by decide) (by decide) (by decide)

/-! ## Union totals (`Collection::do_union`, collection.cpp): per sub-search
`total += found` where `found = search_params->all_result_ids_len`, and
`out_of += coll->get_num_documents()` only when the collection id is seen for
the first time (`unique_collection_ids`). -/

/-- Embeds the accumulation loop of `Collection::do_union`.
`collNumDocs` maps a collection id to `num_documents`; each sub-search is a
pair `(coll_id, found)`; `seen` models `unique_collection_ids`. -/
def unionTotalsGo (collNumDocs : Nat → Nat) :
    Nat → Nat → List Nat → List (Nat × Nat) → Nat × Nat
  | total, out_of, _, [] => (total, out_of)
  | total, out_of, seen, (cid, found) :: rest =>
      if cid ∈ seen then unionTotalsGo collNumDocs (total + found) out_of seen rest
      else unionTotalsGo collNumDocs (total + found) (out_of + collNumDocs cid)
        (cid :: seen) rest

/-- The `(found, out_of)` pair of a union response. -/
def unionTotals (collNumDocs : Nat → Nat) (searches : List (Nat × Nat)) : Nat × Nat :=
  unionTotalsGo collNumDocs 0 0 [] searches

theorem unionTotalsGo_spec (collNumDocs : Nat → Nat) (searches : List (Nat × Nat))
    (total out_of : Nat) (seen : List Nat) :
    unionTotalsGo collNumDocs total out_of seen searches =
      (total + (searches.map Prod.snd).sum,
       out_of + ∑ c ∈ (searches.map Prod.fst).toFinset \ seen.toFinset, collNumDocs c) := by
  induction searches generalizing total out_of seen with
  | nil => simp [unionTotalsGo]
  | cons p rest ih =>
    obtain ⟨cid, found⟩ := p
    by_cases hmem : cid ∈ seen
    · rw [unionTotalsGo, if_pos hmem, ih]
      have hset : (((cid, found) :: rest).map Prod.fst).toFinset \ seen.toFinset =
          (rest.map Prod.fst).toFinset \ seen.toFinset := by
        ext y
        simp only [List.map_cons, List.toFinset_cons, Finset.mem_sdiff, Finset.mem_insert,
          List.mem_toFinset]
        constructor
        · rintro ⟨hy | hy, hns⟩
          · exact absurd (hy ▸ hmem) (by simpa using hns)
          · exact ⟨hy, hns⟩
        · rintro ⟨hy, hns⟩
          exact ⟨Or.inr hy, hns⟩
      rw [hset]
      simp [Nat.add_assoc]
    · rw [unionTotalsGo, if_neg hmem, ih]
      have hnotmem : cid ∉ (rest.map Prod.fst).toFinset \ (cid :: seen).toFinset := by
        simp
      have hset : (((cid, found) :: rest).map Prod.fst).toFinset \ seen.toFinset =
          insert cid ((rest.map Prod.fst).toFinset \ (cid :: seen).toFinset) := by
        ext y
        simp only [List.map_cons, List.toFinset_cons, Finset.mem_sdiff, Finset.mem_insert,
          List.mem_toFinset, List.mem_cons]
        constructor
        · rintro ⟨hy | hy, hns⟩
          · exact Or.inl hy
          · by_cases hyc : y = cid
            · exact Or.inl hyc
            · exact Or.inr ⟨hy, by tauto⟩
        · rintro (hy | ⟨hy, hns⟩)
          · subst hy
            exact ⟨Or.inl rfl, by simpa using hmem⟩
          · exact ⟨Or.inr hy, by tauto⟩
      rw [hset, Finset.sum_insert hnotmem]
      simp only [List.map_cons, List.sum_cons]
      ring_nf

/-- C10: in a union response, `found` is the sum of the per-sub-search result
counts (counting a collection once per sub-search it appears in), while
`out_of` counts each distinct collection's document total exactly once;
consequently a union of two sub-searches over the same collection can report
`found` greater than `out_of`. -/
theorem union_found_out_of (collNumDocs : Nat → Nat) (searches : List (Nat × Nat)) :
    (unionTotals collNumDocs searches).1 = (searches.map Prod.snd).sum ∧
    (unionTotals collNumDocs searches).2 =
      ∑ c ∈ (searches.map Prod.fst).toFinset, collNumDocs c ∧
    (unionTotals (fun _ => 5) [(0, 5), (0, 5)] = (10, 5) ∧ 10 > 5) := by
  have h := unionTotalsGo_spec collNumDocs searches 0 0 []
  unfold unionTotals
  rw [h]
  refine ⟨by simp, ?_, by decide, by decide⟩
  simp

/-! ## Sort clause standardization
(`Collection::validate_and_standardize_sort_fields`, collection.cpp, the
`is_reference_sort == false` path taken by every top-level search request).
The per-clause parsing and schema validation of the main loop is not at issue
here; the model takes each clause's standardized `(name, order, type)` triple
as given and embeds the list-level logic: eval counting, the empty-input
defaults, the found-flag scan, the conditional appends, and the final size
and eval checks. The `sort_by` type enumerators are the ones referenced
throughout collection.cpp (`sort_by::text_match`, `sort_by::vector_search`,
`sort_by::insertion_order`, ...). -/

/-- The resolved type of a standardized sort clause (`sort_by::<type>`). -/
inductive SortFieldType where
  | string_field | int32_field | int64_field | float_field | bool_field
  | geopoint_field | text_match | vector_search | eval_expression
  | insertion_order | union_query_order | random_order | group_found_order
deriving DecidableEq, Repr

/-- A standardized sort clause. `order` is upper-cased ("ASC"/"DESC"). -/
structure SortBy where
  name : String
  order : String
  type : SortFieldType
deriving DecidableEq, Repr

/-- The `sort_fields_std.empty()` defaults block of
`Collection::validate_and_standardize_sort_fields`. -/
def sortDefaults (is_wildcard_query is_vector_query is_union_search : Bool)
    (default_sorting_field : Option (String × SortFieldType)) : List SortBy :=
  let l1 := if ¬ is_wildcard_query then
      [(⟨"_text_match", "DESC", .text_match⟩ : SortBy)] else []
  let l2 := if is_vector_query then
      [(⟨"_vector_distance", "ASC", .vector_search⟩ : SortBy)] else []
  let l3 := match default_sorting_field with
    | some (n, t) => [(⟨n, "DESC", t⟩ : SortBy)]
    | none => if ¬ is_union_search then
        [(⟨"_seq_id", "DESC", .insertion_order⟩ : SortBy)] else []
  let base := l1 ++ l2 ++ l3
  if is_union_search ∧ base.length < 2 then
    base ++ [⟨"_union_search_index", "ASC", .union_query_order⟩,
             ⟨"_seq_id", "DESC", .insertion_order⟩]
  else base

/-- The found-flag scan and the three conditional appends that follow the
defaults block. -/
def sortAppendStages (is_wildcard_query is_vector_query is_union_search : Bool)
    (std0 : List SortBy) : List SortBy :=
  let found_text_match_score := std0.any (fun s => s.name = "_text_match")
  let found_vector_distance := std0.any (fun s => s.name = "_vector_distance")
  let found_union_search_index := std0.any (fun s => s.name = "_union_search_index")
  let std1 :=
    if ¬ found_text_match_score ∧ ¬ is_wildcard_query ∧ std0.length < 3 then
      std0 ++ [⟨"_text_match", "DESC", .text_match⟩]
    else std0
  let std2 :=
    if ¬ found_vector_distance ∧ is_vector_query ∧ is_wildcard_query ∧ std1.length < 3 then
      std1 ++ [⟨"_vector_distance", "ASC", .vector_search⟩]
    else std1
  if ¬ found_union_search_index ∧ is_union_search ∧ std2.length < 2 then
    std2 ++ [⟨"_union_search_index", "ASC", .union_query_order⟩,
             ⟨"_seq_id", "DESC", .insertion_order⟩]
  else std2

/-- The closing checks of `Collection::validate_and_standardize_sort_fields`:
reject more than 3 effective sort clauses (422) and more than one `_eval`
clause (422). -/
def finalSortChecks (eval_sort_count : Nat) (std3 : List SortBy) :
    Except (Nat × String) (List SortBy) :=
  if std3.length > 3 then
    .error (422, "Only upto 3 sort_by fields can be specified.")
  else if eval_sort_count > 1 then
    .error (422, "Only one sorting eval expression is allowed.")
  else .ok std3

/-- Embeds the list-level logic of
`Collection::validate_and_standardize_sort_fields` (non-reference path, the
one taken by every top-level request): count `_eval` clauses, build defaults
when no clause was given, run the found-flag scan and conditional appends,
then apply the final limit checks. `default_sorting_field = some (name, type)`
models a declared default sorting field that is present in the schema and
indexed (the invalid case returns 400 upstream and is outside this claim). -/
def validateAndStandardizeSortFields (sort_fields : List SortBy)
    (is_wildcard_query is_vector_query is_union_search : Bool)
    (default_sorting_field : Option (String × SortFieldType)) :
    Except (Nat × String) (List SortBy) :=
  finalSortChecks ((sort_fields.filter (fun s => s.name = "_eval")).length)
    (sortAppendStages is_wildcard_query is_vector_query is_union_search
      (if sort_fields.isEmpty then
        sortDefaults is_wildcard_query is_vector_query is_union_search default_sorting_field
      else sort_fields))

theorem finalSortChecks_ok (e : Nat) (l out : List SortBy)
    (h : finalSortChecks e l = .ok out) : out.length ≤ 3 ∧ e ≤ 1 := by
  unfold finalSortChecks at h
  split at h
  · cases h
  · split at h
    · cases h
    · rename_i h3 he
      cases h
      exact ⟨by omega, by omega⟩

/-- C3: a non-union search with no sort clauses gets `_text_match desc` first
when the query is not a wildcard, then `_vector_distance asc` when it is a
vector query, then the declared `default_sorting_field desc` or else
`_seq_id desc`; and every request that passes validation has at most 3
effective sort clauses and at most one `_eval` clause. -/
theorem default_sort_order_and_limits (sort_fields : List SortBy)
    (is_wildcard_query is_vector_query is_union_search : Bool)
    (default_sorting_field : Option (String × SortFieldType)) :
    (validateAndStandardizeSortFields [] is_wildcard_query is_vector_query false
        default_sorting_field =
      .ok ((if ¬ is_wildcard_query then
              [(⟨"_text_match", "DESC", .text_match⟩ : SortBy)] else []) ++
           (if is_vector_query then
              [(⟨"_vector_distance", "ASC", .vector_search⟩ : SortBy)] else []) ++
           (match default_sorting_field with
            | some (n, t) => [(⟨n, "DESC", t⟩ : SortBy)]
            | none => [(⟨"_seq_id", "DESC", .insertion_order⟩ : SortBy)]))) ∧
    (∀ out, validateAndStandardizeSortFields sort_fields is_wildcard_query
        is_vector_query is_union_search default_sorting_field = .ok out →
      out.length ≤ 3 ∧
      (sort_fields.filter (fun s => s.name = "_eval")).length ≤ 1) := by
  constructor
  · rcases default_sorting_field with _ | ⟨n, t⟩
    · cases is_wildcard_query <;> cases is_vector_query <;> rfl
    · cases is_wildcard_query <;> cases is_vector_query <;>
        simp [validateAndStandardizeSortFields, sortDefaults, sortAppendStages,
          finalSortChecks]
  · intro out h
    exact finalSortChecks_ok _ _ _ h

/-- Witness for `default_sort_order_and_limits`: a single explicit clause on a
non-wildcard query gets `_text_match desc` appended and passes both limits. -/
theorem default_sort_order_and_limits_witness :
    validateAndStandardizeSortFields [⟨"price", "ASC", .float_field⟩]
        false false false none =
      .ok [⟨"price", "ASC", .float_field⟩, ⟨"_text_match", "DESC", .text_match⟩] ∧
    ([(⟨"price", "ASC", .float_field⟩ : SortBy),
      ⟨"_text_match", "DESC", .text_match⟩].length ≤ 3 ∧
     ([(⟨"price", "ASC", .float_field⟩ : SortBy)].filter
        (fun s => s.name = "_eval")).length ≤ 1) :=
  ⟨by rfl,
    (default_sort_order_and_limits [⟨"price", "ASC", .float_field⟩]
      false false false none).2
      [⟨"price", "ASC", .float_field⟩, ⟨"_text_match", "DESC", .text_match⟩]
      (by rfl)⟩

/-! ## Reference cascade on delete (`Collection::cascade_remove_docs`,
collection.cpp). For each owning document found by the
`<field>_sequence_id:<ref_seq_id>` filter, the array branch walks the
reference array and its helper array in parallel; the element values are
modelled by an arbitrary type with decidable equality. -/

/-- The action `cascade_remove_docs` takes on one owning document:
`removeDocument` is `remove_document(...)`; `updateDocument` buffers an
`UPDATE` with the rebuilt reference/helper arrays; `nullifyField` buffers an
`UPDATE` setting the reference field to null; `skipped` is one of the
error-logged guard branches (or a document whose array did not contain the
removed value). -/
inductive CascadeAction (α : Type) where
  | removeDocument : CascadeAction α
  | updateDocument : List α → List Nat → CascadeAction α
  | nullifyField : CascadeAction α
  | skipped : CascadeAction α
deriving DecidableEq, Repr

/-- Embeds the array-reference branch of `Collection::cascade_remove_docs`
for one owning document: `ref_value` is `ref_doc.at(ref_field_name)`,
`refArr` the owning document's reference array, `helperArr` its reference
helper array, `num_ref_helper_fields` the size of the document's
`.reference_helper_fields` list (0 when absent), `is_field_optional` the
schema flag of the reference field. -/
def cascadeRemoveArrayDoc {α : Type} [DecidableEq α] (ref_value : α)
    (is_field_optional : Bool) (refArr : List α) (helperArr : List Nat)
    (num_ref_helper_fields : Nat) : CascadeAction α :=
  if refArr.isEmpty then .skipped
  else if refArr.length ≠ helperArr.length then .skipped
  else if refArr.length > 1 then
    let kept := (refArr.zip helperArr).filter (fun p => p.1 ≠ ref_value)
    if ref_value ∈ refArr then .updateDocument (kept.map Prod.fst) (kept.map Prod.snd)
    else .skipped
  else if num_ref_helper_fields > 1 ∧ is_field_optional then .nullifyField
  else .removeDocument

theorem zip_filter_erase {α : Type} [DecidableEq α] (v : α) :
    ∀ (l1 : List α) (l2 : List Nat) (k : Nat), l1.length = l2.length →
      l1[k]? = some v → (∀ j, j < l1.length → j ≠ k → l1[j]? ≠ some v) →
      ((l1.zip l2).filter (fun p => p.1 ≠ v)).map Prod.fst = l1.eraseIdx k ∧
      ((l1.zip l2).filter (fun p => p.1 ≠ v)).map Prod.snd = l2.eraseIdx k := by
  intro l1
  induction l1 with
  | nil => intro l2 k _ hk _; simp at hk
  | cons x xs ih =>
    intro l2 k hlen hk huniq
    match l2 with
    | [] => simp at hlen
    | y :: ys =>
      have hlen' : xs.length = ys.length := by simpa using hlen
      match k with
      | 0 =>
        have hx : x = v := by simpa using hk
        subst hx
        have hkeep : ∀ p ∈ xs.zip ys, decide (p.1 ≠ x) = true := by
          intro p hp
          have hmem := List.of_mem_zip hp
          obtain ⟨j, hj, hjv⟩ := List.getElem_of_mem hmem.1
          have hne := huniq (j + 1) (by simpa using hj) (by omega)
          rw [List.getElem?_cons_succ, List.getElem?_eq_getElem hj, hjv] at hne
          simp only [decide_eq_true_eq]
          exact fun he => hne (congrArg some he)
        have hfilter : (xs.zip ys).filter (fun p => p.1 ≠ x) = xs.zip ys :=
          List.filter_eq_self.mpr hkeep
        have hdrop : (decide ((x, y).1 ≠ x)) = false := by simp
        rw [List.zip_cons_cons, List.filter_cons, hdrop]
        constructor
        · show ((xs.zip ys).filter (fun p => p.1 ≠ x)).map Prod.fst =
            (x :: xs).eraseIdx 0
          rw [hfilter]
          exact List.map_fst_zip xs ys (le_of_eq hlen')
        · show ((xs.zip ys).filter (fun p => p.1 ≠ x)).map Prod.snd =
            (y :: ys).eraseIdx 0
          rw [hfilter]
          exact List.map_snd_zip xs ys (ge_of_eq hlen')
      | k + 1 =>
        have hx : x ≠ v := by
          have h0 := huniq 0 (by simp) (by omega)
          simpa using h0
        have htail : xs[k]? = some v := by simpa using hk
        have huniq' : ∀ j, j < xs.length → j ≠ k → xs[j]? ≠ some v := by
          intro j hj hjk
          have hj1 := huniq (j + 1) (by simpa using hj) (by omega)
          simpa using hj1
        obtain ⟨h1, h2⟩ := ih ys k hlen' htail huniq'
        have hkeepx : (decide ((x, y).1 ≠ v)) = true := by simpa using hx
        rw [List.zip_cons_cons, List.filter_cons, hkeepx]
        constructor
        · show ((x, y) :: (xs.zip ys).filter (fun p => p.1 ≠ v)).map Prod.fst =
            (x :: xs).eraseIdx (k + 1)
          rw [List.map_cons, List.eraseIdx_cons_succ, h1]
        · show ((x, y) :: (xs.zip ys).filter (fun p => p.1 ≠ v)).map Prod.snd =
            (y :: ys).eraseIdx (k + 1)
          rw [List.map_cons, List.eraseIdx_cons_succ, h2]

/-- C7: when a referenced document is deleted, an owning document whose array
reference field contains the referenced value exactly once has: (arrays with
more than one element) exactly the matching element and the helper entry at
the same index removed, all other element/helper pairs keeping their index
correspondence; (arrays with one element) the singular rule applied — the
document is deleted unless it carries other references through an optional
field, in which case the reference field is set to null. -/
theorem cascade_array_reference_delete {α : Type} [DecidableEq α] (ref_value : α)
    (is_field_optional : Bool) (refArr : List α) (helperArr : List Nat)
    (num_ref_helper_fields k : Nat)
    (hlen : refArr.length = helperArr.length)
    (hk : refArr[k]? = some ref_value)
    (huniq : ∀ j, j < refArr.length → j ≠ k → refArr[j]? ≠ some ref_value) :
    (refArr.length > 1 →
      cascadeRemoveArrayDoc ref_value is_field_optional refArr helperArr
          num_ref_helper_fields =
        .updateDocument (refArr.eraseIdx k) (helperArr.eraseIdx k)) ∧
    (refArr.length = 1 →
      cascadeRemoveArrayDoc ref_value is_field_optional refArr helperArr
          num_ref_helper_fields =
        (if num_ref_helper_fields > 1 ∧ is_field_optional then .nullifyField
         else .removeDocument)) := by
  have hne : ¬ refArr.isEmpty := by
    cases refArr
    · simp at hk
    · simp
  have hmem : ref_value ∈ refArr := by
    have hklt : k < refArr.length := by
      by_contra hge
      rw [List.getElem?_eq_none (by omega)] at hk
      cases hk
    rw [List.getElem?_eq_getElem hklt] at hk
    exact (Option.some.injEq _ _ ▸ hk) ▸ List.getElem_mem hklt
  constructor
  · intro hgt
    obtain ⟨h1, h2⟩ := zip_filter_erase ref_value refArr helperArr k hlen hk huniq
    unfold cascadeRemoveArrayDoc
    rw [if_neg (by simpa using hne), if_neg (by omega), if_pos hgt]
    simp only [if_pos hmem, h1, h2]
  · intro hone
    unfold cascadeRemoveArrayDoc
    rw [if_neg (by simpa using hne), if_neg (by omega), if_neg (by omega)]

/-- Witness for `cascade_array_reference_delete`: deleting `c1` from an owner
holding `[c1, c2]` with helpers `[10, 20]` leaves `[c2]` and `[20]`. -/
theorem cascade_array_reference_delete_witness :
    cascadeRemoveArrayDoc "c1" false ["c1", "c2"] [10, 20] 1 =
      .updateDocument ["c2"] [20] :=
  (cascade_array_reference_delete "c1" false ["c1", "c2"] [10, 20] 1 0
    (by decide) (by decide) (by decide)).1 (by decide)

/-! ## Curation override iteration (`Collection::curate_results`,
collection.cpp). An override "applies" when `does_override_match` returns
true; that predicate's outcome for this search is abstracted into the
`match_found` field of each override (its internal query/filter matching is not
at issue in this claim). `curate_results` has three iteration shapes: the
untagged loop over all overrides, the exact-tag-set (AND) scan over the first
tag's override-id list, and the partial-intersection scan over every tag's
override-id list, with a `found_overrides` dedup set threaded through. -/

/-- An override as seen by the iteration logic of `curate_results`. -/
structure OverrideRule where
  id : String
  tags : List String
  stop_processing : Bool
  match_found : Bool
deriving DecidableEq, Repr

/-- Embeds the untagged loop of `Collection::curate_results`: apply every
matching override in order; `break` after a matching override with
`stop_processing`. Returns the applied override ids in order. -/
def curateUntagged : List OverrideRule → List String
  | [] => []
  | o :: rest =>
      if o.match_found then
        if o.stop_processing then [o.id] else o.id :: curateUntagged rest
      else curateUntagged rest

/-- Embeds the exact-tag-set (AND) scan of `Collection::curate_results` over
the first tag's override-id list: an override applies when its rule tag set
equals the request tags and it matches; `break` on `stop_processing`.
Returns `(applied ids, all_tags_found)`. -/
def curateTagSetScan (tags : List String) (get : String → Option OverrideRule) :
    List String → List String × Bool
  | [] => ([], false)
  | id :: rest =>
      match get id with
      | none => curateTagSetScan tags get rest
      | some o =>
          if o.tags = tags ∧ o.match_found then
            if o.stop_processing then ([id], true)
            else
              let r := curateTagSetScan tags get rest
              (id :: r.1, true)
          else
            let r := curateTagSetScan tags get rest
            (r.1, r.2)

/-- Embeds the inner loop of the partial-intersection phase of
`Collection::curate_results` for one tag's override-id list: skip ids already
in `found_overrides`, apply overrides whose tag set intersects the request
tags and which match, and `break` (this list only) on `stop_processing`.
Returns the ids applied from this list and the updated `found_overrides`. -/
def scanTagOverrideIds (tags : List String) (get : String → Option OverrideRule)
    (found : List String) : List String → List String × List String
  | [] => ([], found)
  | id :: rest =>
      if id ∈ found then scanTagOverrideIds tags get found rest
      else match get id with
        | none => scanTagOverrideIds tags get found rest
        | some o =>
            if o.tags.inter tags ≠ [] ∧ o.match_found then
              if o.stop_processing then ([id], id :: found)
              else
                let r := scanTagOverrideIds tags get (id :: found) rest
                (id :: r.1, r.2)
            else scanTagOverrideIds tags get found rest

/-- The outer loop of the partial-intersection phase: one
`scanTagOverrideIds` pass per request tag, threading `found_overrides`. -/
def scanAllTags (tags : List String) (get : String → Option OverrideRule)
    (override_tags : String → List String) (found : List String) :
    List String → List String
  | [] => []
  | tag :: more =>
      let r := scanTagOverrideIds tags get found (override_tags tag)
      r.1 ++ scanAllTags tags get override_tags r.2 more

/-- Embeds the tagged branch of `Collection::curate_results`: with more than
one request tag, first the AND scan over the first tag's override-id list;
if it found nothing, the partial-intersection phase over every tag. -/
def curateTagged (tags : List String) (override_tags : String → List String)
    (get : String → Option OverrideRule) : List String :=
  match tags with
  | [] => []
  | t :: _ =>
      let andRes := if tags.length > 1 then curateTagSetScan tags get (override_tags t)
        else ([], false)
      if andRes.2 then andRes.1
      else andRes.1 ++ scanAllTags tags get override_tags andRes.1 tags

/-- The property claimed of `stop_processing`: once an override with it
matches (= is applied), no override later in the given iteration order is
applied. -/
def stopHaltsLater (iterationOrder : List String)
    (get : String → Option OverrideRule) (applied : List String) : Prop :=
  ∀ pre s post, iterationOrder = pre ++ s :: post →
    (∀ o, get s = some o → o.stop_processing = true) → s ∈ applied →
    ∀ r ∈ post, r ∉ applied

/-- Concrete curation setup refuting C6: request tags `[t1, t2]`; override
`o1` is tagged `t1` with `stop_processing` and matches; override `o2` is
tagged `t2` and matches. No override has tag set exactly `[t1, t2]`, so the
partial-intersection phase runs; `o1` stops only tag `t1`'s list and `o2`
is still applied afterwards. -/
def cexGet : String → Option OverrideRule
  | "o1" => some ⟨"o1", ["t1"], true, true⟩
  | "o2" => some ⟨"o2", ["t2"], false, true⟩
  | _ => none

/-- The `override_tags` index for the C6 counterexample. -/
def cexOverrideTags : String → List String
  | "t1" => ["o1"]
  | "t2" => ["o2"]
  | _ => []

theorem curate_stop_processing_counterexample :
    curateTagged ["t1", "t2"] cexOverrideTags cexGet = ["o1", "o2"] ∧
    (∀ o, cexGet "o1" = some o → o.stop_processing = true) ∧
    ¬ stopHaltsLater ["o1", "o2"] cexGet
        (curateTagged ["t1", "t2"] cexOverrideTags cexGet) := by
  refine ⟨by rfl, by intro o h; cases h; rfl, ?_⟩
  intro h
  have h2 := h [] "o1" ["o2"] rfl (by intro o ho; cases ho; rfl)
    (by rw [(by rfl : curateTagged ["t1", "t2"] cexOverrideTags cexGet = ["o1", "o2"])]; simp)
    "o2" (by simp)
  rw [(by rfl : curateTagged ["t1", "t2"] cexOverrideTags cexGet = ["o1", "o2"])] at h2
  simp at h2

theorem curateUntagged_halt (o : OverrideRule) (post : List OverrideRule) :
    ∀ pre : List OverrideRule, o.match_found = true → o.stop_processing = true →
      (∀ p ∈ pre, p.match_found = true → p.stop_processing = false) →
      curateUntagged (pre ++ o :: post) =
        ((pre.filter (fun p => p.match_found)).map OverrideRule.id) ++ [o.id] := by
  intro pre
  induction pre with
  | nil =>
    intro hm hs _
    simp [curateUntagged, hm, hs]
  | cons p rest ih =>
    intro hm hs hpre
    have hrest : ∀ q ∈ rest, q.match_found = true → q.stop_processing = false := by
      intro q hq
      exact hpre q (List.mem_cons_of_mem p hq)
    rw [List.cons_append]
    have hstep : curateUntagged (p :: (rest ++ o :: post)) =
        if p.match_found then
          (if p.stop_processing then [p.id]
           else p.id :: curateUntagged (rest ++ o :: post))
        else curateUntagged (rest ++ o :: post) := rfl
    rw [hstep]
    by_cases hpm : p.match_found = true
    · have hps : p.stop_processing = false := hpre p (List.mem_cons_self p rest) hpm
      rw [if_pos hpm, if_neg (by simp [hps]), ih hm hs hrest]
      simp [List.filter_cons, hpm]
    · rw [if_neg hpm, ih hm hs hrest]
      have hpm' : p.match_found = false := by
        cases hmf : p.match_found
        · rfl
        · exact absurd hmf hpm
      simp [List.filter_cons, hpm']

theorem scanTagOverrideIds_halt (tags : List String)
    (get : String → Option OverrideRule) (s : String) (post : List String) :
    ∀ (pre : List String) (found : List String),
      (∃ o, get s = some o ∧ o.match_found = true ∧ o.tags.inter tags ≠ [] ∧
        o.stop_processing = true) →
      s ∉ found → s ∉ pre →
      (∀ p ∈ pre, ∀ o, get p = some o → o.stop_processing = false) →
      (scanTagOverrideIds tags get found (pre ++ s :: post)).1 =
        (scanTagOverrideIds tags get found pre).1 ++ [s] := by
  intro pre
  induction pre with
  | nil =>
    intro found hstop hf _ _
    obtain ⟨o, hget, hm, hint, hs⟩ := hstop
    simp only [List.nil_append, scanTagOverrideIds]
    rw [if_neg hf, hget]
    simp only [scanTagOverrideIds]
    rw [if_pos ⟨hint, hm⟩, if_pos hs]
  | cons p rest ih =>
    intro found hstop hf hpre hnostop
    have hsp : s ≠ p := by
      intro he
      exact hpre (he ▸ List.mem_cons_self p rest)
    have hrest : s ∉ rest := fun hr => hpre (List.mem_cons_of_mem p hr)
    have hnostop' : ∀ q ∈ rest, ∀ o, get q = some o → o.stop_processing = false :=
      fun q hq => hnostop q (List.mem_cons_of_mem p hq)
    rw [List.cons_append]
    have hstep : ∀ L : List String, scanTagOverrideIds tags get found (p :: L) =
        (if p ∈ found then scanTagOverrideIds tags get found L
         else match get p with
          | none => scanTagOverrideIds tags get found L
          | some o =>
              if o.tags.inter tags ≠ [] ∧ o.match_found then
                if o.stop_processing then ([p], p :: found)
                else
                  (p :: (scanTagOverrideIds tags get (p :: found) L).1,
                    (scanTagOverrideIds tags get (p :: found) L).2)
              else scanTagOverrideIds tags get found L) := fun _ => rfl
    rw [hstep, hstep]
    by_cases hpf : p ∈ found
    · rw [if_pos hpf, if_pos hpf]
      exact ih found hstop hf hrest hnostop'
    · rw [if_neg hpf, if_neg hpf]
      rcases hget : get p with _ | o
      · exact ih found hstop hf hrest hnostop'
      · dsimp only
        have hops : o.stop_processing = false :=
          hnostop p (List.mem_cons_self p rest) o hget
        by_cases happ : o.tags.inter tags ≠ [] ∧ o.match_found = true
        · rw [if_pos happ, if_pos happ, if_neg (by simp [hops]),
            if_neg (by simp [hops])]
          have hf' : s ∉ p :: found := by
            intro hmem
            rcases List.mem_cons.mp hmem with he | hm2
            · exact hsp he
            · exact hf hm2
          dsimp only
          rw [ih (p :: found) hstop hf' hrest hnostop', List.cons_append]
        · rw [if_neg happ, if_neg happ]
          exact ih found hstop hf hrest hnostop'

/-- C6 (amended): an override with `stop_processing = true` halts further
override application within the list being iterated when it matches: in the
untagged path this is the whole override collection, so nothing later is
applied; in the partial tag-match phase it is only the current tag's
override-id list, so overrides listed under subsequent request tags are still
applied (see `curate_stop_processing_counterexample`). -/
theorem curate_stop_processing_amended (o : OverrideRule)
    (post : List OverrideRule) (pre : List OverrideRule)
    (tags : List String) (get : String → Option OverrideRule) (s : String)
    (idPost idPre found : List String) :
    (o.match_found = true → o.stop_processing = true →
      (∀ p ∈ pre, p.match_found = true → p.stop_processing = false) →
      curateUntagged (pre ++ o :: post) =
        ((pre.filter (fun p => p.match_found)).map OverrideRule.id) ++ [o.id]) ∧
    ((∃ q, get s = some q ∧ q.match_found = true ∧ q.tags.inter tags ≠ [] ∧
        q.stop_processing = true) →
      s ∉ found → s ∉ idPre →
      (∀ p ∈ idPre, ∀ q, get p = some q → q.stop_processing = false) →
      (scanTagOverrideIds tags get found (idPre ++ s :: idPost)).1 =
        (scanTagOverrideIds tags get found idPre).1 ++ [s]) :=
  ⟨fun hm hs hpre => curateUntagged_halt o post pre hm hs hpre,
   fun hstop hf hp hns => scanTagOverrideIds_halt tags get s idPost idPre found
     hstop hf hp hns⟩

/-- Witness for `curate_stop_processing_amended` on the counterexample data:
in tag `t1`'s list `[o1]`, the stop override `o1` is applied and ends that
list's scan. -/
theorem curate_stop_processing_amended_witness :
    curateUntagged [⟨"a", [], false, true⟩, ⟨"b", [], true, true⟩,
        ⟨"c", [], false, true⟩] = ["a", "b"] ∧
    (scanTagOverrideIds ["t1", "t2"] cexGet [] ["o1"]).1 = [] ++ ["o1"] :=
  ⟨(curate_stop_processing_amended ⟨"b", [], true, true⟩ [⟨"c", [], false, true⟩]
      [⟨"a", [], false, true⟩] [] cexGet "" [] [] []).1 rfl rfl
      (by intro p hp; simp at hp; subst hp; intro; rfl),
   (curate_stop_processing_amended ⟨"", [], false, false⟩ [] []
      ["t1", "t2"] cexGet "o1" [] [] []).2
      ⟨⟨"o1", ["t1"], true, true⟩, rfl, rfl, by decide, rfl⟩
      (by simp) (by simp) (by simp)⟩

/-! ## Union sort-type compatibility (`Collection::do_union`, collection.cpp).
After each sub-search past the first, its standardized sort clauses are
compared position by position against the first sub-search's: size first,
then per position the resolved type, then the order. The first failure
returns `Option<bool>(400, message)` and no merged result is produced. Type
names in the messages come from `magic_enum::enum_name` over the `sort_by`
type enumerators. -/

/-- The `magic_enum::enum_name` spelling of a `sort_by` type enumerator. -/
def SortFieldType.enumName : SortFieldType → String
  | .string_field => "string_field"
  | .int32_field => "int32_field"
  | .int64_field => "int64_field"
  | .float_field => "float_field"
  | .bool_field => "bool_field"
  | .geopoint_field => "geopoint_field"
  | .text_match => "text_match"
  | .vector_search => "vector_search"
  | .eval_expression => "eval_expression"
  | .insertion_order => "insertion_order"
  | .union_query_order => "union_query_order"
  | .random_order => "random_order"
  | .group_found_order => "group_found_order"

/-- The `append_hint` construction of the type-mismatch branch in
`Collection::do_union`: when the current and/or the first sub-search fell
back to its collection's default sorting field, name the collection(s) and
suggest removing the default. -/
def appendHint (this_dsf_used first_dsf_used : Bool)
    (thisColl firstColl : String) : String :=
  if this_dsf_used ∧ first_dsf_used then
    " Both `" ++ thisColl ++ "` and `" ++ firstColl ++
    "` collections have declared a default sorting field of different type." ++
    " Since union expects the searches to sort_by on the same type of fields," ++
    " default sorting fields of the collections should be removed."
  else if this_dsf_used then
    " `" ++ thisColl ++
    "` collection has declared a default sorting field of different type. Since" ++
    " union expects the searches to sort_by on the same type of fields, default" ++
    " sorting field of the collection should be removed."
  else if first_dsf_used then
    " `" ++ firstColl ++
    "` collection has declared a default sorting field of different type. Since" ++
    " union expects the searches to sort_by on the same type of fields, default" ++
    " sorting field of the collection should be removed."
  else ""

/-- The type-mismatch message of `Collection::do_union`. -/
def typeMismatchMsg (t f : SortBy) (search_index : Nat) (hint : String) : String :=
  "Expected type of `" ++ t.name ++ "` sort_by (" ++ t.type.enumName ++
  ") at search index `" ++ toString search_index ++
  "` to be the same as the type of `" ++ f.name ++ "` sort_by (" ++
  f.type.enumName ++ ") at search index `0`." ++ hint

/-- The order-mismatch message of `Collection::do_union`. -/
def orderMismatchMsg (t f : SortBy) (search_index : Nat) : String :=
  "Expected order of `" ++ t.name ++ "` sort_by (" ++ t.order ++
  ") at search index `" ++ toString search_index ++
  "` to be the same as the order of `" ++ f.name ++ "` sort_by (" ++
  f.order ++ ") at search index `0`."

/-- One `"`name: type`, "` fragment per sort clause, as emitted by the
size-mismatch message loops of `Collection::do_union`. -/
def sortListFragment (l : List SortBy) : String :=
  String.join (l.map fun s => "`" ++ s.name ++ ": " ++ s.type.enumName ++ "`, ")

/-- `message[i] = c` on a C++ string, modelled on the character list. -/
def setCharAt (s : String) (i : Nat) (c : Char) : String :=
  ⟨s.data.set i c⟩

/-- The fix-up after the first clause list of the size-mismatch message:
`if (message.back() != 0x7b) message[message.size()-2] = 0x7d; else
message += "0x7d "`. -/
def braceFixupOne (msg : String) : String :=
  if msg.back ≠ '\x7b' then setCharAt msg (msg.length - 2) '\x7d'
  else msg ++ "\x7d "

/-- The fix-up after the second clause list: also turn the final character
into a full stop. -/
def braceFixupTwo (msg : String) : String :=
  if msg.back ≠ '\x7b' then
    setCharAt (setCharAt msg (msg.length - 2) '\x7d') (msg.length - 1) '.'
  else msg ++ "\x7d."

/-- The size-mismatch message of `Collection::do_union`. -/
def sizeMismatchMsg (firstSorts thisSorts : List SortBy) (search_index : Nat) :
    String :=
  let m1 := "Expected size of `sort_by` parameter of all searches to be equal. " ++
    "The first union search sorts on \x7b" ++ sortListFragment firstSorts
  let m2 := braceFixupOne m1 ++ "but the search at index `" ++
    toString search_index ++ "` sorts on \x7b" ++ sortListFragment thisSorts
  braceFixupTwo m2

/-- The per-position scan of `Collection::do_union`: at each sort clause
position, first the resolved type, then the order must match the first
sub-search's clause; the first failure returns `(400, message)`. -/
def unionSortScan (search_index : Nat) (thisColl firstColl : String)
    (this_dsf_used first_dsf_used : Bool) :
    List SortBy → List SortBy → Option (Nat × String)
  | f :: fs, t :: ts =>
      if t.type ≠ f.type then
        some (400, typeMismatchMsg t f search_index
          (appendHint this_dsf_used first_dsf_used thisColl firstColl))
      else if t.order ≠ f.order then
        some (400, orderMismatchMsg t f search_index)
      else unionSortScan search_index thisColl firstColl this_dsf_used
        first_dsf_used fs ts
  | _, _ => none

/-- Embeds the whole sort-compatibility check of `Collection::do_union` for
one later sub-search against the first: size check, then the per-position
scan. `some (code, message)` means the union returns that error and produces
no merged result. -/
def unionSortCompatCheck (firstSorts thisSorts : List SortBy)
    (search_index : Nat) (firstColl thisColl : String)
    (first_dsf_used this_dsf_used : Bool) : Option (Nat × String) :=
  if thisSorts.length ≠ firstSorts.length then
    some (400, sizeMismatchMsg firstSorts thisSorts search_index)
  else unionSortScan search_index thisColl firstColl this_dsf_used
    first_dsf_used firstSorts thisSorts

/-- `sub` occurs contiguously inside `s`. -/
def strContains (s sub : String) : Prop :=
  sub.data <:+: s.data

instance strContainsDecidable (s sub : String) : Decidable (strContains s sub) :=
  inferInstanceAs (Decidable (sub.data <:+: s.data))

theorem strContains_self (s : String) : strContains s s :=
  ⟨[], [], by simp⟩

theorem strContains_append_left (a b sub : String) (h : strContains a sub) :
    strContains (a ++ b) sub := by
  obtain ⟨p, q, hpq⟩ := h
  exact ⟨p, q ++ b.data, by rw [String.data_append, ← hpq]; simp⟩

theorem strContains_append_right (a b sub : String) (h : strContains b sub) :
    strContains (a ++ b) sub := by
  obtain ⟨p, q, hpq⟩ := h
  exact ⟨a.data ++ p, q, by rw [String.data_append, ← hpq]; simp⟩

theorem typeMismatchMsg_contains (t f : SortBy) (si : Nat) (hint : String) :
    strContains (typeMismatchMsg t f si hint) t.name ∧
    strContains (typeMismatchMsg t f si hint) t.type.enumName ∧
    strContains (typeMismatchMsg t f si hint) f.name ∧
    strContains (typeMismatchMsg t f si hint) f.type.enumName ∧
    strContains (typeMismatchMsg t f si hint) (toString si) ∧
    strContains (typeMismatchMsg t f si hint) hint := by
  unfold typeMismatchMsg
  refine ⟨?_, ?_, ?_, ?_, ?_, ?_⟩ <;>
    repeat (first
      | exact strContains_append_right _ _ _ (strContains_self _)
      | refine strContains_append_left _ _ _ ?_)

theorem orderMismatchMsg_contains (t f : SortBy) (si : Nat) :
    strContains (orderMismatchMsg t f si) t.name ∧
    strContains (orderMismatchMsg t f si) t.order ∧
    strContains (orderMismatchMsg t f si) f.name ∧
    strContains (orderMismatchMsg t f si) f.order ∧
    strContains (orderMismatchMsg t f si) (toString si) := by
  unfold orderMismatchMsg
  refine ⟨?_, ?_, ?_, ?_, ?_⟩ <;>
    repeat (first
      | exact strContains_append_right _ _ _ (strContains_self _)
      | refine strContains_append_left _ _ _ ?_)

theorem unionSortScan_first_mismatch (si : Nat) (tc fc : String)
    (td fd : Bool) (f t : SortBy) (fs ts : List SortBy) :
    ∀ pre pre' : List SortBy, pre.length = pre'.length →
      (∀ p ∈ pre.zip pre', p.2.type = p.1.type ∧ p.2.order = p.1.order) →
      (t.type ≠ f.type →
        unionSortScan si tc fc td fd (pre ++ f :: fs) (pre' ++ t :: ts) =
          some (400, typeMismatchMsg t f si (appendHint td fd tc fc))) ∧
      (t.type = f.type → t.order ≠ f.order →
        unionSortScan si tc fc td fd (pre ++ f :: fs) (pre' ++ t :: ts) =
          some (400, orderMismatchMsg t f si)) := by
  intro pre
  induction pre with
  | nil =>
    intro pre' hlen _
    have hnil : pre' = [] := List.eq_nil_of_length_eq_zero hlen.symm
    subst hnil
    constructor
    · intro hty
      simp only [List.nil_append, unionSortScan]
      rw [if_pos hty]
    · intro hty hord
      simp only [List.nil_append, unionSortScan]
      rw [if_neg (by simp [hty]), if_pos hord]
  | cons a as ih =>
    intro pre' hlen hpairs
    match pre' with
    | [] => simp at hlen
    | b :: bs =>
      have hlen' : as.length = bs.length := by simpa using hlen
      have hab : b.type = a.type ∧ b.order = a.order :=
        hpairs (a, b) (by simp [List.zip_cons_cons])
      have hpairs' : ∀ p ∈ as.zip bs, p.2.type = p.1.type ∧ p.2.order = p.1.order := by
        intro p hp
        exact hpairs p (by simp [List.zip_cons_cons, hp])
      have hstep0 : unionSortScan si tc fc td fd ((a :: as) ++ f :: fs)
          ((b :: bs) ++ t :: ts) =
          (if b.type ≠ a.type then
            some (400, typeMismatchMsg b a si (appendHint td fd tc fc))
          else if b.order ≠ a.order then some (400, orderMismatchMsg b a si)
          else unionSortScan si tc fc td fd (as ++ f :: fs) (bs ++ t :: ts)) := rfl
      have hstep : unionSortScan si tc fc td fd ((a :: as) ++ f :: fs)
          ((b :: bs) ++ t :: ts) =
          unionSortScan si tc fc td fd (as ++ f :: fs) (bs ++ t :: ts) := by
        rw [hstep0, if_neg (by simp [hab.1]), if_neg (by simp [hab.2])]
      rw [hstep]
      exact ih bs hlen' hpairs'

/-- C4 (amended): in a union of two or more sub-searches, a later sub-search
whose resolved sort clauses disagree with the first sub-search's returns an
`InvalidArgument` (400) error before any merged result is produced. On a
clause-count mismatch the message lists both clause sets with their types.
At the first position where the resolved *types* differ, the message names
both clauses with their types and search indexes, and — exactly when either
involved sub-search fell back to its collection's default sorting field —
additionally names that collection and suggests removing the default. At the
first position where only the *directions* differ, the message names both
clauses with their directions and search indexes; it does not list the sort
types and carries no default-sorting-field hint (see
`union_sort_order_mismatch_counterexample`). -/
theorem union_sort_mismatch_amended (si : Nat) (fcoll tcoll : String)
    (fd td : Bool) (f t : SortBy) (fs ts pre pre' : List SortBy)
    (hlen : pre.length = pre'.length)
    (hpairs : ∀ p ∈ pre.zip pre', p.2.type = p.1.type ∧ p.2.order = p.1.order)
    (hlen2 : fs.length = ts.length) :
    (∀ A B : List SortBy, B.length ≠ A.length →
      unionSortCompatCheck A B si fcoll tcoll fd td =
        some (400, sizeMismatchMsg A B si)) ∧
    (t.type ≠ f.type →
      unionSortCompatCheck (pre ++ f :: fs) (pre' ++ t :: ts) si fcoll tcoll fd td =
        some (400, typeMismatchMsg t f si (appendHint td fd tcoll fcoll)) ∧
      strContains (typeMismatchMsg t f si (appendHint td fd tcoll fcoll))
        t.type.enumName ∧
      strContains (typeMismatchMsg t f si (appendHint td fd tcoll fcoll))
        f.type.enumName ∧
      (td = true ∨ fd = true →
        strContains (typeMismatchMsg t f si (appendHint td fd tcoll fcoll))
          tcoll ∨
        strContains (typeMismatchMsg t f si (appendHint td fd tcoll fcoll))
          fcoll) ∧
      (td = false → fd = false → appendHint td fd tcoll fcoll = "")) ∧
    (t.type = f.type → t.order ≠ f.order →
      unionSortCompatCheck (pre ++ f :: fs) (pre' ++ t :: ts) si fcoll tcoll fd td =
        some (400, orderMismatchMsg t f si) ∧
      strContains (orderMismatchMsg t f si) t.order ∧
      strContains (orderMismatchMsg t f si) f.order) := by
  have hlentot : (pre' ++ t :: ts).length = (pre ++ f :: fs).length := by
    simp [hlen, hlen2]
  have hscan := unionSortScan_first_mismatch si tcoll fcoll td fd f t fs ts
    pre pre' hlen hpairs
  refine ⟨?_, ?_, ?_⟩
  · intro A B hAB
    unfold unionSortCompatCheck
    rw [if_pos hAB]
  · intro hty
    refine ⟨?_, (typeMismatchMsg_contains t f si _).2.1,
      (typeMismatchMsg_contains t f si _).2.2.2.1, ?_, ?_⟩
    · unfold unionSortCompatCheck
      rw [if_neg (by simp [hlentot]), hscan.1 hty]
    · intro hdsf
      have hc := (typeMismatchMsg_contains t f si
        (appendHint td fd tcoll fcoll)).2.2.2.2.2
      rcases hdsf with htd | hfd
      · by_cases hfd2 : fd = true
        · left
          refine strContains_append_right _ _ _ ?_
          unfold appendHint
          rw [if_pos ⟨htd, hfd2⟩]
          refine strContains_append_left _ _ _ ?_
          refine strContains_append_left _ _ _ ?_
          refine strContains_append_left _ _ _ ?_
          refine strContains_append_left _ _ _ ?_
          refine strContains_append_left _ _ _ ?_
          exact strContains_append_right _ _ _ (strContains_self _)
        · left
          refine strContains_append_right _ _ _ ?_
          unfold appendHint
          rw [if_neg (by simp [hfd2]), if_pos htd]
          refine strContains_append_left _ _ _ ?_
          refine strContains_append_left _ _ _ ?_
          refine strContains_append_left _ _ _ ?_
          exact strContains_append_right _ _ _ (strContains_self _)
      · by_cases htd2 : td = true
        · left
          refine strContains_append_right _ _ _ ?_
          unfold appendHint
          rw [if_pos ⟨htd2, hfd⟩]
          refine strContains_append_left _ _ _ ?_
          refine strContains_append_left _ _ _ ?_
          refine strContains_append_left _ _ _ ?_
          refine strContains_append_left _ _ _ ?_
          refine strContains_append_left _ _ _ ?_
          exact strContains_append_right _ _ _ (strContains_self _)
        · right
          refine strContains_append_right _ _ _ ?_
          unfold appendHint
          rw [if_neg (by simp [htd2]), if_neg (by simp [htd2]), if_pos hfd]
          refine strContains_append_left _ _ _ ?_
          refine strContains_append_left _ _ _ ?_
          refine strContains_append_left _ _ _ ?_
          exact strContains_append_right _ _ _ (strContains_self _)
    · intro htd hfd
      unfold appendHint
      rw [if_neg (by simp [htd]), if_neg (by simp [htd]), if_neg (by simp [hfd])]
  · intro hty hord
    refine ⟨?_, (orderMismatchMsg_contains t f si).2.1,
      (orderMismatchMsg_contains t f si).2.2.2.1⟩
    unfold unionSortCompatCheck
    rw [if_neg (by simp [hlentot]), hscan.2 hty hord]

set_option maxRecDepth 40000 in
/-- Counterexample to C4 as stated: sub-search 1 sorts `price:ASC`
(float_field), sub-search 0 sorts `price:DESC` (float_field) — a direction
mismatch. The union returns `InvalidArgument`, but the message does not list
the sort types of the clauses and carries no default-sorting-field hint, so
"names both sort clauses with their types" fails for direction mismatches. -/
theorem union_sort_order_mismatch_counterexample :
    unionSortCompatCheck [⟨"price", "ASC", .float_field⟩]
        [⟨"price", "DESC", .float_field⟩] 1 "A" "B" false false =
      some (400, orderMismatchMsg ⟨"price", "DESC", .float_field⟩
        ⟨"price", "ASC", .float_field⟩ 1) ∧
    ¬ strContains (orderMismatchMsg ⟨"price", "DESC", .float_field⟩
        ⟨"price", "ASC", .float_field⟩ 1)
      (SortFieldType.float_field.enumName) ∧
    ¬ strContains (orderMismatchMsg ⟨"price", "DESC", .float_field⟩
        ⟨"price", "ASC", .float_field⟩ 1) "default sorting field" := by
  refine ⟨by rfl, by decide, by decide⟩

/-- Witness for `union_sort_mismatch_amended`: a `float_field` versus
`int32_field` type mismatch at position 0 with no default sorting fields. -/
theorem union_sort_mismatch_amended_witness :
    unionSortCompatCheck [⟨"price", "ASC", .float_field⟩]
        [⟨"rank", "ASC", .int32_field⟩] 1 "A" "B" false false =
      some (400, typeMismatchMsg ⟨"rank", "ASC", .int32_field⟩
        ⟨"price", "ASC", .float_field⟩ 1 (appendHint false false "B" "A")) ∧
    strContains (typeMismatchMsg ⟨"rank", "ASC", .int32_field⟩
        ⟨"price", "ASC", .float_field⟩ 1 (appendHint false false "B" "A"))
      (SortFieldType.int32_field.enumName) :=
  ⟨((union_sort_mismatch_amended 1 "A" "B" false false
      ⟨"price", "ASC", .float_field⟩ ⟨"rank", "ASC", .int32_field⟩
      [] [] [] [] rfl (by simp) rfl).2.1 (by decide)).1,
   ((union_sort_mismatch_amended 1 "A" "B" false false
      ⟨"price", "ASC", .float_field⟩ ⟨"rank", "ASC", .int32_field⟩
      [] [] [] [] rfl (by simp) rfl).2.1 (by decide)).2.1⟩

/-! ## Schema alter validation (`Collection::alter` and
`Collection::validate_alter_payload`, collection.cpp).
`validate_alter_payload` works on local copies `updated_search_schema`,
`updated_nested_fields`, `updated_embedding_fields` of the schema maps and
walks every stored document against the proposed schema with
`DIRTY_VALUES::COERCE_OR_REJECT`; on a document failure it returns the error
and `Collection::alter` returns it before the mutation phase. However, for
an added field with an embedding spec the second field pass executes
`embedding_fields.emplace(f.name, f)` on the *member* map (collection.cpp
line 6593, and line 6609 for nested children) — not on the local
`updated_embedding_fields` copy used everywhere else in the function — so
that member mutation survives a later validation failure. The document
validator itself (`validator_t::validate_index_in_memory`) is an external
collaborator here and is a parameter of the model. -/

/-- A schema field as far as the alter-validation flow cares: its name and
whether it carries an embedding spec (`f.embed.count(fields::from) != 0`). -/
structure FieldModel where
  name : String
  is_embedding : Bool
deriving DecidableEq, Repr

/-- A name-keyed field map (`tsl::htrie_map<char, field>`). -/
abbrev FieldMap : Type := List (String × FieldModel)

/-- `tsl::htrie_map::emplace`: insert only when the key is absent. -/
def fieldMapEmplace (m : FieldMap) (k : String) (f : FieldModel) : FieldMap :=
  if (m.find? (fun p => p.1 == k)).isSome then m
  else m ++ [(k, f)]

/-- The schema state of a collection that C5 ranges over (restricted to the
two maps the modelled flow touches; the remaining components behave like
`search_schema`, which only has a local copy updated). -/
structure CollectionSchemaState where
  search_schema : FieldMap
  embedding_fields : FieldMap
deriving DecidableEq, Repr

/-- Embeds the addition pass and document walk of
`Collection::validate_alter_payload` for a payload that adds the fields
`adds`: the proposed schema `updated_search_schema` is a local copy extended
with every added field; for each added field with an embedding spec the
*member* `embedding_fields` is extended in place (line 6593); then every
stored document is validated against the proposed schema
(`validateDoc updated doc`, modelling `validator_t::validate_index_in_memory`
with `COERCE_OR_REJECT`), and the first failure aborts with the
schema-incompatibility error. Returns the outcome together with the
collection state as it stands after the call. -/
def validate_alter_payload {δ : Type} (st : CollectionSchemaState)
    (adds : List FieldModel) (docs : List δ)
    (validateDoc : FieldMap → δ → Bool) :
    Except String Unit × CollectionSchemaState :=
  let updated_search_schema :=
    adds.foldl (fun u f => fieldMapEmplace u f.name f) st.search_schema
  let st' : CollectionSchemaState :=
    { st with embedding_fields :=
        (adds.foldl (fun e f => if f.is_embedding then fieldMapEmplace e f.name f else e)
          st.embedding_fields) }
  match docs.find? (fun d => ! validateDoc updated_search_schema d) with
  | some _ =>
      (.error ("Schema change is incompatible with the type of documents " ++
        "already stored in this collection."), st')
  | none => (.ok (), st')

/-- Embeds the shape of `Collection::alter`: run `validate_alter_payload`;
on failure return the error without running any mutation phase (the local
`updated_*` copies are dropped, but the member `embedding_fields` mutation
performed during validation is not rolled back); on success apply the
additions. -/
def alter {δ : Type} (st : CollectionSchemaState) (adds : List FieldModel)
    (docs : List δ) (validateDoc : FieldMap → δ → Bool) :
    Except String Unit × CollectionSchemaState :=
  match validate_alter_payload st adds docs validateDoc with
  | (.error e, st') => (.error e, st')
  | (.ok _, st') =>
      (.ok (), { st' with search_schema :=
        (adds.foldl (fun u f => fieldMapEmplace u f.name f) st'.search_schema) })

/-- The initial state of the C5 failing input: empty schema, no embedding
fields. -/
def c5State : CollectionSchemaState :=
  { search_schema := [], embedding_fields := [] }

/-- The C5 failing payload: add an embedding field `embedding` and a plain
required field `req` that the stored document lacks. -/
def c5Adds : List FieldModel :=
  [⟨"embedding", true⟩, ⟨"req", false⟩]

/-- The C5 document validator: the single stored document (index 0) fails
coercion against any proposed schema containing `req` (a newly added
non-optional field missing from the stored document). -/
def c5ValidateDoc (updated : FieldMap) (_ : Nat) : Bool :=
  ! (updated.find? (fun p => p.1 == "req")).isSome

/-- C5 is a code bug: on the failing input, `alter` rejects the payload
because a stored document fails validation against the proposed schema, yet
the collection's `embedding_fields` map now contains the embedding field
added by the rejected payload — `validate_alter_payload` mutates the member
map instead of its local `updated_embedding_fields` copy (collection.cpp
line 6593) and the failure path never rolls it back. The `search_schema`
component, which only has its local copy updated, is unchanged as the spec
demands. -/
theorem alter_embedding_fields_not_rolled_back :
    (alter c5State c5Adds [0] c5ValidateDoc).1 =
      .error ("Schema change is incompatible with the type of documents " ++
        "already stored in this collection.") ∧
    (alter c5State c5Adds [0] c5ValidateDoc).2.embedding_fields =
      [("embedding", ⟨"embedding", true⟩)] ∧
    (alter c5State c5Adds [0] c5ValidateDoc).2.embedding_fields ≠
      c5State.embedding_fields ∧
    (alter c5State c5Adds [0] c5ValidateDoc).2.search_schema =
      c5State.search_schema := by
  refine ⟨rfl, rfl, ?_, rfl⟩
  intro h
  have h2 : ([("embedding", (⟨"embedding", true⟩ : FieldModel))] :
      List (String × FieldModel)) = [] :=
    Eq.trans (by rfl : _ = (alter c5State c5Adds [0] c5ValidateDoc).2.embedding_fields).symm
      h |>.trans rfl
  cases h2

/-! ## Bucketed rescoring (`Collection::search`, collection.cpp, the two
blocks that apply `_text_match(buckets:N | bucket_size:B)` and
`_vector_distance(buckets:N | bucket_size:B)`). A raw result group is
represented by its leading `KV`; `raw_result_kvs[i][0]` is modelled as the
i-th `KV` of a list. Each block: find the first matching sort clause with a
bucket parameter; when `min(DEFAULT_TOPSTER_SIZE, count)` reaches the
threshold, save the original scores keyed by `kv->key` in a side map,
overwrite the score at the affected index with the (negated) block start
index, re-sort with `std::partial_sort(..., KV::is_greater_kv_group)`, and
write the saved scores back into the first
`min(DEFAULT_TOPSTER_SIZE, count)` positions. The two blocks are identical
except for the clause they look for and the score slot they touch: the
text-match block reads and writes `scores[kv->match_score_index]` (per KV),
the vector-distance block `scores[vector_distance_index]` (the clause's
position, the same for every KV); both are instances of `bucketBlockBy`
below with the appropriate index selector `idxOf`. -/

/-- A result `KV` as the bucketing blocks see it. -/
structure KV where
  key : Nat
  match_score_index : Nat
  scores : List Int
deriving DecidableEq, Repr

/-- `kv->scores[i]` (reads out of range are undefined in the source; the
model totalizes them to 0 and the theorems assume the index in range). -/
def KV.getScore (kv : KV) (i : Nat) : Int :=
  kv.scores.getD i 0

/-- `kv->scores[i] = v`. -/
def KV.setScore (kv : KV) (i : Nat) (v : Int) : KV :=
  { kv with scores := kv.scores.set i v }

/-- A sort clause as the bucketing blocks see it (`sort_by` with
`text_match_buckets` / `text_match_bucket_size` /
`vector_search_buckets` / `vector_search_bucket_size`). -/
structure BucketSortClause where
  name : String
  text_match_buckets : Nat
  text_match_bucket_size : Nat
  vector_search_buckets : Nat
  vector_search_bucket_size : Nat
deriving DecidableEq, Repr

/-- Modelled from the spec: `Index::DEFAULT_TOPSTER_SIZE` is declared in
index.h, which is not among the sources; the spec's claim and the in-source
comment ("only first `max_kvs_bucketed` elements are bucketed to prevent
pagination issues past 250 records") fix it at 250. -/
def DEFAULT_TOPSTER_SIZE : Nat := 250

/-- The text-match clause-selection loop (collection.cpp:2822-2829): the
first sort clause named `_text_match` whose `buckets` or `bucket_size` is
non-zero (`break` on the first hit). -/
def findTextMatchBucketClause : List BucketSortClause → Option BucketSortClause
  | [] => none
  | c :: rest =>
      if c.name = "_text_match" ∧
          (c.text_match_buckets ≠ 0 ∨ c.text_match_bucket_size ≠ 0) then some c
      else findTextMatchBucketClause rest

/-- The vector-distance clause-selection loop (collection.cpp:2871-2878),
which also records the clause's position `vector_distance_index` because the
block reads and writes that score slot. -/
def findVectorDistanceBucketClauseFrom :
    Nat → List BucketSortClause → Option (Nat × BucketSortClause)
  | _, [] => none
  | i, c :: rest =>
      if c.name = "_vector_distance" ∧
          (c.vector_search_buckets > 0 ∨ c.vector_search_bucket_size > 0) then
        some (i, c)
      else findVectorDistanceBucketClauseFrom (i + 1) rest

/-- The vector-distance clause and its index, scanning from position 0. -/
def findVectorDistanceBucketClause (fields : List BucketSortClause) :
    Option (Nat × BucketSortClause) :=
  findVectorDistanceBucketClauseFrom 0 fields

/-- Modelled from the spec: `KV::is_greater_kv_group` (topster.h is not among
the sources) ranks one result group above another by comparing the leading
KVs' score arrays lexicographically, higher score first (§4.3: sort clauses
apply in order, ties fall through to the next clause). -/
def scoresLexGT : List Int → List Int → Bool
  | a :: as, b :: bs =>
      if a > b then true else if a < b then false else scoresLexGT as bs
  | _, _ => false

/-- `KV::is_greater_kv_group` on the modelled groups. -/
def isGreaterKVGroup (a b : KV) : Bool :=
  scoresLexGT a.scores b.scores

/-- Stable insertion of one KV in front of the first strictly-smaller entry. -/
def insertKV (a : KV) : List KV → List KV
  | [] => [a]
  | b :: bs => if isGreaterKVGroup a b then a :: b :: bs else b :: insertKV a bs

/-- Models the `std::partial_sort(begin, begin + max_kvs_bucketed, end,
KV::is_greater_kv_group)` call as a stable total sort. A total sort is one
admissible outcome of `partial_sort`, and the facts proved below depend only
on the prefix `partial_sort` guarantees (the top `max_kvs_bucketed` elements
in comparator order) together with the multiset of elements, both of which
every conforming implementation produces. -/
def sortKVs : List KV → List KV
  | [] => []
  | a :: as => insertKV a (sortKVs as)

/-- The side map `result_scores`: original score (at the slot `idxOf` picks)
of the first `max_kvs_bucketed` KVs, keyed by `kv->key` (with distinct keys
the last-write-wins map and this first-hit association list agree). The
text-match block saves `scores[kv->match_score_index]` (collection.cpp:2850),
the vector-distance block `scores[vector_distance_index]`
(collection.cpp:2898). -/
def saveScoresBy (idxOf : KV → Nat) (kvs : List KV) (max_kvs_bucketed : Nat) :
    List (Nat × Int) :=
  (kvs.take max_kvs_bucketed).map (fun kv => (kv.key, kv.getScore (idxOf kv)))

/-- `result_scores[key]` with the `operator[]` default of 0 for a missing
key. -/
def savedLookup (saved : List (Nat × Int)) (k : Nat) : Int :=
  ((saved.find? (fun p => p.1 == k)).map Prod.snd).getD 0

/-- The block-assignment loop: position `p < max_kvs_bucketed` gets score
`-i` at the slot `idxOf` picks, where `i = block_len * (p / block_len)` is
the start index of `p`'s block — the closed form of the two nested while
loops, which advance `i` by `block_len` (the guard ensures
`block_len ≥ 1`). -/
def bucketAssignBy (idxOf : KV → Nat) (kvs : List KV)
    (max_kvs_bucketed block_len : Nat) : List KV :=
  kvs.mapIdx (fun p kv =>
    if p < max_kvs_bucketed then
      kv.setScore (idxOf kv) (-((block_len * (p / block_len) : Nat) : Int))
    else kv)

/-- The restore loop: positions `p < max_kvs_bucketed` get
`result_scores[kv->key]` written back at the slot `idxOf` picks. -/
def restoreScoresBy (idxOf : KV → Nat) (kvs : List KV)
    (saved : List (Nat × Int)) (max_kvs_bucketed : Nat) : List KV :=
  kvs.mapIdx (fun p kv =>
    if p < max_kvs_bucketed then
      kv.setScore (idxOf kv) (savedLookup saved kv.key)
    else kv)

/-- One bucketing block of `Collection::search`, common to
collection.cpp:2831-2868 (text match, `idxOf kv = kv.match_score_index`) and
collection.cpp:2880-2914 (vector distance, `idxOf _ = vector_distance_index`):
threshold guard, score save, block-key assignment, re-sort, restore.
`block_len` is `ceil(max_kvs_bucketed/num_buckets)` (computed through
`double` in the source — exact for values up to 250) or the explicit
`bucket_size`. -/
def bucketBlockBy (idxOf : KV → Nat) (num_buckets bucket_size : Nat)
    (kvs : List KV) : List KV :=
  let max_kvs_bucketed := min DEFAULT_TOPSTER_SIZE kvs.length
  if (num_buckets > 0 ∧ max_kvs_bucketed ≥ num_buckets) ∨
      (bucket_size > 0 ∧ max_kvs_bucketed ≥ bucket_size) then
    let block_len := if num_buckets > 0 then
        (max_kvs_bucketed + num_buckets - 1) / num_buckets else bucket_size
    restoreScoresBy idxOf
      (sortKVs (bucketAssignBy idxOf kvs max_kvs_bucketed block_len))
      (saveScoresBy idxOf kvs max_kvs_bucketed) max_kvs_bucketed
  else kvs

/-- The run guard of the text-match block for the selected clause. -/
def textMatchBucketingRuns (sort_fields_std : List BucketSortClause)
    (raw_count : Nat) : Prop :=
  match findTextMatchBucketClause sort_fields_std with
  | none => False
  | some c =>
      (c.text_match_buckets > 0 ∧
        min DEFAULT_TOPSTER_SIZE raw_count ≥ c.text_match_buckets) ∨
      (c.text_match_bucket_size > 0 ∧
        min DEFAULT_TOPSTER_SIZE raw_count ≥ c.text_match_bucket_size)

/-- The run guard of the vector-distance block for the selected clause. -/
def vectorDistanceBucketingRuns (sort_fields_std : List BucketSortClause)
    (raw_count : Nat) : Prop :=
  match findVectorDistanceBucketClause sort_fields_std with
  | none => False
  | some (_, c) =>
      (c.vector_search_buckets > 0 ∧
        min DEFAULT_TOPSTER_SIZE raw_count ≥ c.vector_search_buckets) ∨
      (c.vector_search_bucket_size > 0 ∧
        min DEFAULT_TOPSTER_SIZE raw_count ≥ c.vector_search_bucket_size)

/-- The text-match bucketing block (collection.cpp:2821-2868): select the
clause, then run the common block on `scores[kv->match_score_index]`. -/
def applyTextMatchBucketing (sort_fields_std : List BucketSortClause)
    (raw_result_kvs : List KV) : List KV :=
  match findTextMatchBucketClause sort_fields_std with
  | none => raw_result_kvs
  | some c =>
      bucketBlockBy (fun kv => kv.match_score_index)
        c.text_match_buckets c.text_match_bucket_size raw_result_kvs

/-- The vector-distance bucketing block (collection.cpp:2870-2914): select
the clause with its position, then run the common block on
`scores[vector_distance_index]`. -/
def applyVectorDistanceBucketing (sort_fields_std : List BucketSortClause)
    (raw_result_kvs : List KV) : List KV :=
  match findVectorDistanceBucketClause sort_fields_std with
  | none => raw_result_kvs
  | some (i, c) =>
      bucketBlockBy (fun _ => i)
        c.vector_search_buckets c.vector_search_bucket_size raw_result_kvs

/-- Both blocks in source order: text match first, vector distance on its
output. -/
def applyBucketing (sort_fields_std : List BucketSortClause)
    (raw_result_kvs : List KV) : List KV :=
  applyVectorDistanceBucketing sort_fields_std
    (applyTextMatchBucketing sort_fields_std raw_result_kvs)

theorem insertKV_perm (a : KV) (l : List KV) : (insertKV a l).Perm (a :: l) := by
  induction l with
  | nil => exact List.Perm.refl _
  | cons b bs ih =>
    unfold insertKV
    split
    · exact List.Perm.refl _
    · exact (List.Perm.cons b ih).trans (List.Perm.swap a b bs)

theorem sortKVs_perm (l : List KV) : (sortKVs l).Perm l := by
  induction l with
  | nil => exact List.Perm.refl _
  | cons a as ih =>
    exact (insertKV_perm a (sortKVs as)).trans (List.Perm.cons a ih)

theorem set_getD_self (l : List Int) (i : Nat) (h : i < l.length) :
    l.set i (l.getD i 0) = l := by
  induction l generalizing i with
  | nil => simp at h
  | cons x xs ih =>
    match i with
    | 0 => simp [List.getD]
    | i + 1 =>
      have h' : i < xs.length := by simpa using h
      have hi := ih i h'
      rw [List.getD_eq_getElem?_getD] at hi
      simp [List.getD, List.set, hi]

theorem getD_set_self (l : List Int) (i : Nat) (v : Int) (h : i < l.length) :
    (l.set i v).getD i 0 = v := by
  rw [List.getD_eq_getElem?_getD, List.getElem?_set_self (by omega)]
  rfl

theorem savedLookup_nodup_by (idxOf : KV → Nat) (kvs : List KV)
    (hkeys : (kvs.map KV.key).Nodup) (kv : KV) (hmem : kv ∈ kvs) :
    savedLookup (kvs.map fun x => (x.key, x.getScore (idxOf x))) kv.key =
      kv.getScore (idxOf kv) := by
  induction kvs with
  | nil => simp at hmem
  | cons a rest ih =>
    have hnd : (rest.map KV.key).Nodup := (List.nodup_cons.mp hkeys).2
    have hknot : a.key ∉ rest.map KV.key := (List.nodup_cons.mp hkeys).1
    by_cases hk : a.key = kv.key
    · have hkv : kv = a := by
        rcases List.mem_cons.mp hmem with he | hr
        · exact he
        · exact absurd (hk ▸ List.mem_map_of_mem KV.key hr) hknot
      subst hkv
      unfold savedLookup
      simp [List.find?_cons, hk]
    · have hr : kv ∈ rest := by
        rcases List.mem_cons.mp hmem with he | hr
        · exact absurd (he ▸ rfl) hk
        · exact hr
      have hbne : ((a.key, a.getScore (idxOf a)).1 == kv.key) = false := by
        simpa using hk
      unfold savedLookup
      rw [List.map_cons, List.find?_cons, hbne]
      exact ih hnd hr

theorem restoreScoresBy_eq_map (idxOf : KV → Nat) (l : List KV)
    (saved : List (Nat × Int)) (m : Nat) (hm : l.length ≤ m) :
    restoreScoresBy idxOf l saved m =
      l.map (fun kv => kv.setScore (idxOf kv) (savedLookup saved kv.key)) := by
  unfold restoreScoresBy
  refine List.ext_getElem (by simp) ?_
  intro i h1 h2
  simp only [List.getElem_mapIdx, List.getElem_map]
  rw [if_pos (by simp at h2; omega)]

theorem restore_assign_id_by (idxOf : KV → Nat)
    (hinv : ∀ kv i v, idxOf (KV.setScore kv i v) = idxOf kv)
    (kvs : List KV) (block_len : Nat)
    (hkeys : (kvs.map KV.key).Nodup)
    (hidx : ∀ kv ∈ kvs, idxOf kv < kv.scores.length) :
    (bucketAssignBy idxOf kvs kvs.length block_len).map
      (fun kv => kv.setScore (idxOf kv)
        (savedLookup (saveScoresBy idxOf kvs kvs.length) kv.key)) = kvs := by
  have hsave : saveScoresBy idxOf kvs kvs.length =
      kvs.map (fun x => (x.key, x.getScore (idxOf x))) := by
    unfold saveScoresBy
    rw [List.take_length]
  unfold bucketAssignBy
  refine List.ext_getElem (by simp) ?_
  intro i h1 h2
  simp only [List.getElem_map, List.getElem_mapIdx]
  rw [if_pos h2]
  have hmem : kvs[i] ∈ kvs := List.getElem_mem h2
  have hlk : savedLookup (saveScoresBy idxOf kvs kvs.length) (kvs[i]).key =
      (kvs[i]).getScore (idxOf (kvs[i])) := by
    rw [hsave]
    exact savedLookup_nodup_by idxOf kvs hkeys (kvs[i]) hmem
  rw [hinv]
  show (kvs[i].setScore (idxOf (kvs[i]))
      (-((block_len * (i / block_len) : Nat) : Int))).setScore (idxOf (kvs[i]))
      (savedLookup (saveScoresBy idxOf kvs kvs.length) kvs[i].key) = kvs[i]
  rw [hlk]
  simp only [KV.setScore, KV.getScore]
  rw [List.set_set, set_getD_self _ _ (hidx (kvs[i]) hmem)]

theorem bucketBlockBy_perm (idxOf : KV → Nat)
    (hinv : ∀ kv i v, idxOf (KV.setScore kv i v) = idxOf kv)
    (num_buckets bucket_size : Nat) (kvs : List KV)
    (hkeys : (kvs.map KV.key).Nodup)
    (hidx : ∀ kv ∈ kvs, idxOf kv < kv.scores.length)
    (hlen : kvs.length ≤ DEFAULT_TOPSTER_SIZE) :
    (bucketBlockBy idxOf num_buckets bucket_size kvs).Perm kvs := by
  have hm : min DEFAULT_TOPSTER_SIZE kvs.length = kvs.length :=
    Nat.min_eq_right hlen
  by_cases hrun : (num_buckets > 0 ∧
      min DEFAULT_TOPSTER_SIZE kvs.length ≥ num_buckets) ∨
      (bucket_size > 0 ∧ min DEFAULT_TOPSTER_SIZE kvs.length ≥ bucket_size)
  · have happly : bucketBlockBy idxOf num_buckets bucket_size kvs =
        restoreScoresBy idxOf
          (sortKVs (bucketAssignBy idxOf kvs kvs.length
            (if num_buckets > 0 then
              (kvs.length + num_buckets - 1) / num_buckets else bucket_size)))
          (saveScoresBy idxOf kvs kvs.length) kvs.length := by
      unfold bucketBlockBy
      dsimp only
      rw [if_pos hrun, hm]
    rw [happly]
    generalize (if num_buckets > 0 then
      (kvs.length + num_buckets - 1) / num_buckets else bucket_size) = bl
    have hslen : (sortKVs (bucketAssignBy idxOf kvs kvs.length bl)).length ≤
        kvs.length := by
      rw [(sortKVs_perm _).length_eq]
      unfold bucketAssignBy
      simp
    rw [restoreScoresBy_eq_map idxOf _ _ _ hslen]
    have hperm := (sortKVs_perm (bucketAssignBy idxOf kvs kvs.length bl)).map
      (fun kv => kv.setScore (idxOf kv)
        (savedLookup (saveScoresBy idxOf kvs kvs.length) kv.key))
    rw [restore_assign_id_by idxOf hinv kvs bl hkeys hidx] at hperm
    exact hperm
  · unfold bucketBlockBy
    dsimp only
    rw [if_neg hrun]

/-- C2 (amended): for a `_text_match` or `_vector_distance` sort clause with
`buckets:N` or `bucket_size:B` set, the corresponding bucketing block runs
iff `min(250, raw result count) ≥ N` (respectively `≥ B`), for every raw
count; when it does not run the result list is untouched; when it runs, the
first `min(250, count)` results are re-keyed in blocks of size `block_len`
(= `ceil(min(250, count)/N)` or `B`; position `p` gets the negated block
start as its score at the affected slot — the per-KV `match_score_index` for
text match, the clause position for vector distance) before the re-sort; and
whenever the raw result count is at most 250, each block's output — and the
two blocks composed — is a permutation of its input: every result keeps its
original score at the affected sort index, only the display order changes.
(With more than 250 raw results the restore step can overwrite scores
instead, see `bucketed_rescoring_counterexample`.) -/
theorem bucketed_rescoring_amended (fields : List BucketSortClause)
    (kvs : List KV)
    (hkeys : (kvs.map KV.key).Nodup)
    (hmsi : ∀ kv ∈ kvs, kv.match_score_index < kv.scores.length) :
    (∀ c, findTextMatchBucketClause fields = some c →
      c.text_match_bucket_size = 0 → 0 < c.text_match_buckets →
      (textMatchBucketingRuns fields kvs.length ↔
        c.text_match_buckets ≤ min DEFAULT_TOPSTER_SIZE kvs.length)) ∧
    (∀ c, findTextMatchBucketClause fields = some c →
      c.text_match_buckets = 0 → 0 < c.text_match_bucket_size →
      (textMatchBucketingRuns fields kvs.length ↔
        c.text_match_bucket_size ≤ min DEFAULT_TOPSTER_SIZE kvs.length)) ∧
    (∀ i c, findVectorDistanceBucketClause fields = some (i, c) →
      c.vector_search_bucket_size = 0 → 0 < c.vector_search_buckets →
      (vectorDistanceBucketingRuns fields kvs.length ↔
        c.vector_search_buckets ≤ min DEFAULT_TOPSTER_SIZE kvs.length)) ∧
    (∀ i c, findVectorDistanceBucketClause fields = some (i, c) →
      c.vector_search_buckets = 0 → 0 < c.vector_search_bucket_size →
      (vectorDistanceBucketingRuns fields kvs.length ↔
        c.vector_search_bucket_size ≤ min DEFAULT_TOPSTER_SIZE kvs.length)) ∧
    (¬ textMatchBucketingRuns fields kvs.length →
      applyTextMatchBucketing fields kvs = kvs) ∧
    (¬ vectorDistanceBucketingRuns fields kvs.length →
      applyVectorDistanceBucketing fields kvs = kvs) ∧
    (∀ (idxOf : KV → Nat),
      (∀ kv i v, idxOf (KV.setScore kv i v) = idxOf kv) →
      (∀ kv ∈ kvs, idxOf kv < kv.scores.length) →
      ∀ maxk bl p kv, p < maxk →
        (bucketAssignBy idxOf kvs maxk bl)[p]? = some kv →
        kv.getScore (idxOf kv) = -((bl * (p / bl) : Nat) : Int)) ∧
    (kvs.length ≤ DEFAULT_TOPSTER_SIZE →
      (applyTextMatchBucketing fields kvs).Perm kvs) ∧
    (kvs.length ≤ DEFAULT_TOPSTER_SIZE →
      (∀ i c, findVectorDistanceBucketClause fields = some (i, c) →
        ∀ kv ∈ kvs, i < kv.scores.length) →
      (applyVectorDistanceBucketing fields kvs).Perm kvs) ∧
    (kvs.length ≤ DEFAULT_TOPSTER_SIZE →
      (∀ i c, findVectorDistanceBucketClause fields = some (i, c) →
        ∀ kv ∈ kvs, i < kv.scores.length) →
      (applyBucketing fields kvs).Perm kvs) := by
  have htextPerm : kvs.length ≤ DEFAULT_TOPSTER_SIZE →
      (applyTextMatchBucketing fields kvs).Perm kvs := by
    intro hlen
    rcases hfind : findTextMatchBucketClause fields with _ | c
    · unfold applyTextMatchBucketing
      rw [hfind]
    · unfold applyTextMatchBucketing
      rw [hfind]
      exact bucketBlockBy_perm (fun kv => kv.match_score_index)
        (fun _ _ _ => rfl) c.text_match_buckets c.text_match_bucket_size kvs
        hkeys hmsi hlen
  have hvecPerm : ∀ (l : List KV), (l.map KV.key).Nodup →
      l.length ≤ DEFAULT_TOPSTER_SIZE →
      (∀ i c, findVectorDistanceBucketClause fields = some (i, c) →
        ∀ kv ∈ l, i < kv.scores.length) →
      (applyVectorDistanceBucketing fields l).Perm l := by
    intro l hk hlen hvidx
    rcases hfind : findVectorDistanceBucketClause fields with _ | ⟨i, c⟩
    · unfold applyVectorDistanceBucketing
      rw [hfind]
    · unfold applyVectorDistanceBucketing
      rw [hfind]
      exact bucketBlockBy_perm (fun _ => i) (fun _ _ _ => rfl)
        c.vector_search_buckets c.vector_search_bucket_size l
        hk (hvidx i c hfind) hlen
  refine ⟨?_, ?_, ?_, ?_, ?_, ?_, ?_, htextPerm, fun hlen => hvecPerm kvs hkeys hlen, ?_⟩
  · intro c hfind hb0 hbpos
    unfold textMatchBucketingRuns
    rw [hfind]
    constructor
    · rintro (⟨_, h⟩ | ⟨h0, _⟩)
      · exact h
      · rw [hb0] at h0
        exact absurd h0 (lt_irrefl 0)
    · intro h
      exact Or.inl ⟨hbpos, h⟩
  · intro c hfind hb0 hbpos
    unfold textMatchBucketingRuns
    rw [hfind]
    constructor
    · rintro (⟨h0, _⟩ | ⟨_, h⟩)
      · rw [hb0] at h0
        exact absurd h0 (lt_irrefl 0)
      · exact h
    · intro h
      exact Or.inr ⟨hbpos, h⟩
  · intro i c hfind hb0 hbpos
    unfold vectorDistanceBucketingRuns
    rw [hfind]
    constructor
    · rintro (⟨_, h⟩ | ⟨h0, _⟩)
      · exact h
      · rw [hb0] at h0
        exact absurd h0 (lt_irrefl 0)
    · intro h
      exact Or.inl ⟨hbpos, h⟩
  · intro i c hfind hb0 hbpos
    unfold vectorDistanceBucketingRuns
    rw [hfind]
    constructor
    · rintro (⟨h0, _⟩ | ⟨_, h⟩)
      · rw [hb0] at h0
        exact absurd h0 (lt_irrefl 0)
      · exact h
    · intro h
      exact Or.inr ⟨hbpos, h⟩
  · intro hnot
    rcases hfind : findTextMatchBucketClause fields with _ | c
    · unfold applyTextMatchBucketing
      rw [hfind]
    · unfold textMatchBucketingRuns at hnot
      rw [hfind] at hnot
      unfold applyTextMatchBucketing
      rw [hfind]
      show bucketBlockBy (fun kv => kv.match_score_index)
        c.text_match_buckets c.text_match_bucket_size kvs = kvs
      unfold bucketBlockBy
      dsimp only
      rw [if_neg hnot]
  · intro hnot
    rcases hfind : findVectorDistanceBucketClause fields with _ | ⟨i, c⟩
    · unfold applyVectorDistanceBucketing
      rw [hfind]
    · unfold vectorDistanceBucketingRuns at hnot
      rw [hfind] at hnot
      unfold applyVectorDistanceBucketing
      rw [hfind]
      show bucketBlockBy (fun _ => i)
        c.vector_search_buckets c.vector_search_bucket_size kvs = kvs
      unfold bucketBlockBy
      dsimp only
      rw [if_neg hnot]
  · intro idxOf hinv hidx maxk bl p kv hp hget
    have hplenA : p < (bucketAssignBy idxOf kvs maxk bl).length := by
      by_contra hge
      rw [List.getElem?_eq_none (le_of_not_lt hge)] at hget
      cases hget
    have hplen : p < kvs.length := by
      unfold bucketAssignBy at hplenA
      simpa using hplenA
    rw [List.getElem?_eq_getElem hplenA] at hget
    have hkv : kv = (bucketAssignBy idxOf kvs maxk bl)[p] :=
      (Option.some.injEq _ _ ▸ hget).symm
    subst hkv
    unfold bucketAssignBy
    simp only [List.getElem_mapIdx]
    rw [if_pos hp, hinv]
    unfold KV.setScore KV.getScore
    exact getD_set_self _ _ _ (hidx (kvs[p]) (List.getElem_mem hplen))
  · intro hlen hvidx
    have htp := htextPerm hlen
    have hk2 : ((applyTextMatchBucketing fields kvs).map KV.key).Nodup := by
      exact ((htp.map KV.key).nodup_iff).mpr hkeys
    have hl2 : (applyTextMatchBucketing fields kvs).length ≤
        DEFAULT_TOPSTER_SIZE := by
      rw [htp.length_eq]
      exact hlen
    have hvidx2 : ∀ i c, findVectorDistanceBucketClause fields = some (i, c) →
        ∀ kv ∈ applyTextMatchBucketing fields kvs, i < kv.scores.length := by
      intro i c hfind kv hmem
      exact hvidx i c hfind kv (htp.mem_iff.mp hmem)
    exact (hvecPerm (applyTextMatchBucketing fields kvs) hk2 hl2 hvidx2).trans htp

/-- Witness for `bucketed_rescoring_amended`: three results with two score
slots each, a `_text_match(buckets:2)` clause at position 0 and a
`_vector_distance(buckets:2)` clause at position 1. -/
theorem bucketed_rescoring_amended_witness :
    (([⟨0, 0, [10, 5]⟩, ⟨1, 0, [5, 9]⟩, ⟨2, 0, [7, 1]⟩] : List KV).map
      KV.key).Nodup ∧
    (applyBucketing
        [⟨"_text_match", 2, 0, 0, 0⟩, ⟨"_vector_distance", 0, 0, 2, 0⟩]
        [⟨0, 0, [10, 5]⟩, ⟨1, 0, [5, 9]⟩, ⟨2, 0, [7, 1]⟩]).Perm
      [⟨0, 0, [10, 5]⟩, ⟨1, 0, [5, 9]⟩, ⟨2, 0, [7, 1]⟩] :=
  ⟨by decide,
    (bucketed_rescoring_amended
      [⟨"_text_match", 2, 0, 0, 0⟩, ⟨"_vector_distance", 0, 0, 2, 0⟩]
      [⟨0, 0, [10, 5]⟩, ⟨1, 0, [5, 9]⟩, ⟨2, 0, [7, 1]⟩]
      (by decide) (by decide)).2.2.2.2.2.2.2.2.2
      (by decide)
      (by
        intro i c h
        have h2 : some ((1 : Nat),
            (⟨"_vector_distance", 0, 0, 2, 0⟩ : BucketSortClause)) =
            some (i, c) := h
        injection h2 with h3
        have hi : (1 : Nat) = i := congrArg Prod.fst h3
        subst hi
        decide)⟩

/-- The C2 counterexample input: 251 raw results with distinct keys
`0..250` and strictly decreasing text-match scores `1000 - k` at sort index
0. -/
def cexBucketKVs : List KV :=
  (List.range 251).map (fun k => ⟨k, 0, [(1000 : Int) - k]⟩)

set_option maxRecDepth 100000 in
set_option maxHeartbeats 4000000 in
/-- Counterexample to C2 as stated: with 251 raw results and
`_text_match(buckets:1)`, only the first 250 results are bucketed (all to
bucket key 0); the un-bucketed 251st result (key 250, original score 750)
out-ranks every bucketed result in the re-sort, lands at position 0, and the
restore step overwrites its score with the side map's default 0 — so not
every result's score at the affected sort index equals its original
pre-bucketing score. -/
theorem bucketed_rescoring_counterexample :
    (applyTextMatchBucketing [⟨"_text_match", 1, 0, 0, 0⟩] cexBucketKVs).head? =
      some ⟨250, 0, [0]⟩ ∧
    (⟨250, 0, [750]⟩ : KV) ∈ cexBucketKVs ∧
    ¬ (∀ kv' ∈ applyTextMatchBucketing [⟨"_text_match", 1, 0, 0, 0⟩] cexBucketKVs,
        ∀ kv ∈ cexBucketKVs, kv'.key = kv.key →
          kv'.getScore kv'.match_score_index = kv.getScore kv.match_score_index) := by
  have hhead : (applyTextMatchBucketing [⟨"_text_match", 1, 0, 0, 0⟩]
      cexBucketKVs).head? = some ⟨250, 0, [0]⟩ := by decide
  refine ⟨hhead, by decide, ?_⟩
  intro h
  have hmem : (⟨250, 0, [0]⟩ : KV) ∈
      applyTextMatchBucketing [⟨"_text_match", 1, 0, 0, 0⟩] cexBucketKVs :=
    List.mem_of_mem_head? (by rw [Option.mem_def, hhead])
  have hcontra := h ⟨250, 0, [0]⟩ hmem ⟨250, 0, [750]⟩ (by decide) rfl
  simp [KV.getScore] at hcontra

end Typesense
